import Mathlib

/-!
# Buffered, batching, retrying output pipeline (`running_output.go`)

Shallow embedding of `RunningOutput` (`Write`, `write`, `AddMetric`,
`NewRunningOutput`) as explicit state passing, and of the serializer selection
`NewSerializer` (`registry.go`) as a pure function.

* A Go `Metric` interface value is `Option μ`; `none` is Go's `nil`.
* Sizes (`MetricBatchSize`, `MetricBufferLimit`, queue lengths) are natural
  numbers: every length is non-negative and the configuration sizes the
  pipeline is run with are non-negative as well.
* The sink (`ro.Output`) and the clock are the environment `Env`: the answer
  of a sink call may depend on everything that happened before
  (the trace), so every pattern of accepted and rejected calls is covered.
* `RunningOutput.trace` is ghost state: the record, in program order, of the
  queue extractions, sink calls and re-enqueues that the code performs.
  It is written, never read, by the embedded code.
* A Go run-time panic (integer division by zero) is the outcome
  `Outcome.panic`.
* Logging (`log.Printf`) and the mutex (sequential model) are left out.
-/

namespace Telegraf

/-- Metric interface value; `none` stands for Go's `nil`. -/
abbrev Metric (μ : Type) := Option μ

/-- Modelled from the spec: the type `Buffer` (the bounded metric queue of
spec §3 and §4.1), whose source file is not part of the repository files.
`limit` is the capacity, `buf` the queued metrics, oldest first. -/
structure Buffer (μ : Type) where
  limit : Nat
  buf : List (Metric μ)

/-- Modelled from the spec: `Buffer.Len`, a pure observation. -/
def Buffer.Len {μ : Type} (b : Buffer μ) : Nat := b.buf.length

/-- Modelled from the spec: `Buffer.IsEmpty`, a pure observation. -/
def Buffer.IsEmpty {μ : Type} (b : Buffer μ) : Bool := b.buf.isEmpty

/-- Modelled from the spec: `Buffer.Add(metrics...)` appends in order; if the
resulting length exceeds the capacity, the oldest elements are evicted from
the head until the length equals the capacity. -/
def Buffer.Add {μ : Type} (b : Buffer μ) (metrics : List (Metric μ)) : Buffer μ :=
  let all := b.buf ++ metrics
  { b with buf := all.drop (all.length - b.limit) }

/-- Modelled from the spec: `Buffer.Batch(n)` removes and returns the first
`min(n, length)` elements in their original order. The result is the batch
and the queue that is left. -/
def Buffer.Batch {μ : Type} (b : Buffer μ) (n : Nat) : List (Metric μ) × Buffer μ :=
  (b.buf.take n, { b with buf := b.buf.drop n })

/-- The queue a batch was taken from (ghost label of a call site). -/
inductive Src where
  | failQ
  | metricsQ
  deriving DecidableEq, Repr

/-- Ghost record of what the code does, in program order.
* `extract src n batch`: `Batch(n)` on queue `src` returned `batch`;
* `sink src failLen batch err`: `ro.Output.Write(batch)` returned `err`; the
  batch had been taken from `src` and `failMetrics` held `failLen` metrics at
  that moment;
* `requeue batch`: `ro.failMetrics.Add(batch...)`. -/
inductive Event (μ ε : Type) where
  | extract (src : Src) (n : Nat) (batch : List (Metric μ))
  | sink (src : Src) (failLen : Nat) (batch : List (Metric μ)) (err : Option ε)
  | requeue (batch : List (Metric μ))
  deriving DecidableEq

/-- The environment of a `RunningOutput`: the sink `ro.Output.Write` and the
time a sink call takes (`time.Since(start)`, in nanoseconds). Both may depend
on the whole history. -/
structure Env (μ ε : Type) where
  sinkWrite : List (Event μ ε) → List (Metric μ) → Option ε
  elapsed : List (Event μ ε) → List (Metric μ) → Int

/-- The `RunningOutput` struct. `MetricsWritten`, `BufferSize` and
`WriteTime` are `Stat` counters; modelled from the spec: `Stat` (its
declaration is not in the repository files) is an integer that `Incr`
increases and `Set` overwrites. `trace` is ghost state. -/
structure RunningOutput (μ ε : Type) where
  MetricBufferLimit : Nat
  MetricBatchSize : Nat
  MetricsWritten : Int
  BufferSize : Int
  WriteTime : Int
  metrics : Buffer μ
  failMetrics : Buffer μ
  trace : List (Event μ ε)

/-- How a call of `Write` ends: it returns an error value (`none` is `nil`),
or the run-time panics on an integer division by zero. -/
inductive Outcome (ε : Type) where
  | ret (err : Option ε)
  | panic
  deriving DecidableEq

/-- The method `RunningOutput.write` (lines 94-111). `src` is a ghost label. -/
def RunningOutput.write {μ ε : Type} (env : Env μ ε) (ro : RunningOutput μ ε)
    (src : Src) (metrics : List (Metric μ)) : Option ε × RunningOutput μ ε :=
  let nMetrics := metrics.length
  if nMetrics = 0 then
    (none, ro)
  else
    let err := env.sinkWrite ro.trace metrics
    let elapsed := env.elapsed ro.trace metrics
    let ro1 := { ro with trace := ro.trace ++ [Event.sink src ro.failMetrics.Len metrics err] }
    match err with
    | none =>
      (none, { ro1 with MetricsWritten := ro1.MetricsWritten + (nMetrics : Int),
                        WriteTime := ro1.WriteTime + elapsed })
    | some e => (some e, ro1)

/-- Body of the retry loop of `Write` (lines 67-76), for the current value of
the local `batchSize`; the loop state is the local `err` and the receiver. -/
def retryBody {μ ε : Type} (env : Env μ ε) (batchSize : Nat)
    (st : Option ε × RunningOutput μ ε) : Option ε × RunningOutput μ ε :=
  let (batch, fm) := st.2.failMetrics.Batch batchSize
  let ro1 := { st.2 with failMetrics := fm,
                         trace := st.2.trace ++ [Event.extract Src.failQ batchSize batch] }
  let (err, ro2) :=
    match st.1 with
    | none => ro1.write env Src.failQ batch
    | some e => (some e, ro1)
  match err with
  | none => (none, ro2)
  | some e =>
    (some e, { ro2 with failMetrics := ro2.failMetrics.Add batch,
                        trace := ro2.trace ++ [Event.requeue batch] })

/-- The retry loop `for i := 0; i < nBatches; i++` of `Write` (lines 61-77).
`k` counts the iterations that are left (`nBatches - i`); `batchSize` is the
local variable that the last iteration overwrites with the remainder. -/
def retryLoop {μ ε : Type} (env : Env μ ε) (nFails b nBatches : Nat) :
    Nat → Nat → Nat → Option ε × RunningOutput μ ε → Option ε × RunningOutput μ ε
  | 0, _, _, st => st
  | k + 1, i, batchSize, st =>
    let batchSize := if i = nBatches - 1 then nFails % b else batchSize
    retryLoop env nFails b nBatches k (i + 1) batchSize (retryBody env batchSize st)

/-- Lines 56-78 of `Write`: the retry of `failMetrics`. `none` is the panic of
`nFails/ro.MetricBatchSize` when the batch size is zero. -/
def retryPhase {μ ε : Type} (env : Env μ ε) (ro : RunningOutput μ ε) (nFails : Nat) :
    Option (Option ε × RunningOutput μ ε) :=
  if !ro.failMetrics.IsEmpty then
    if ro.MetricBatchSize = 0 then
      none
    else
      let nBatches := nFails / ro.MetricBatchSize + 1
      let batchSize := ro.MetricBatchSize
      some (retryLoop env nFails ro.MetricBatchSize nBatches nBatches 0 batchSize (none, ro))
  else
    some (none, ro)

/-- Lines 80-91 of `Write`: one batch from `metrics`. -/
def finalPhase {μ ε : Type} (env : Env μ ε) (st : Option ε × RunningOutput μ ε) :
    Outcome ε × RunningOutput μ ε :=
  let (batch, m) := st.2.metrics.Batch st.2.MetricBatchSize
  let ro1 := { st.2 with metrics := m,
                         trace := st.2.trace ++
                           [Event.extract Src.metricsQ st.2.MetricBatchSize batch] }
  let (err, ro2) :=
    match st.1 with
    | none => ro1.write env Src.metricsQ batch
    | some e => (some e, ro1)
  match err with
  | some e =>
    (Outcome.ret (some e), { ro2 with failMetrics := ro2.failMetrics.Add batch,
                                      trace := ro2.trace ++ [Event.requeue batch] })
  | none => (Outcome.ret none, ro2)

/-- Line 52 of `Write`: `ro.BufferSize.Set(int64(nFails + nMetrics))`. -/
def RunningOutput.setBufferSize {μ ε : Type} (ro : RunningOutput μ ε) (nFails nMetrics : Nat) :
    RunningOutput μ ε :=
  { ro with BufferSize := ((nFails + nMetrics : Nat) : Int) }

/-- The method `RunningOutput.Write` (lines 50-92). -/
def RunningOutput.Write {μ ε : Type} (env : Env μ ε) (ro : RunningOutput μ ε) :
    Outcome ε × RunningOutput μ ε :=
  let nFails := ro.failMetrics.Len
  let nMetrics := ro.metrics.Len
  let ro0 := ro.setBufferSize nFails nMetrics
  match retryPhase env ro0 nFails with
  | none => (Outcome.panic, ro0)
  | some st => finalPhase env st

/-- The method `RunningOutput.AddMetric` (lines 120-133). -/
def RunningOutput.AddMetric {μ ε : Type} (env : Env μ ε) (ro : RunningOutput μ ε)
    (m : Metric μ) : RunningOutput μ ε :=
  match m with
  | none => ro
  | some _ =>
    let ro1 := { ro with metrics := ro.metrics.Add [m] }
    if ro1.metrics.Len = ro1.MetricBatchSize then
      let (batch, q) := ro1.metrics.Batch ro1.MetricBatchSize
      let ro2 := { ro1 with metrics := q,
                            trace := ro1.trace ++
                              [Event.extract Src.metricsQ ro1.MetricBatchSize batch] }
      let (err, ro3) := ro2.write env Src.metricsQ batch
      match err with
      | some _ =>
        { ro3 with failMetrics := ro3.failMetrics.Add batch,
                   trace := ro3.trace ++ [Event.requeue batch] }
      | none => ro3
    else
      ro1

/-! ## Observations on traces and runs -/

/-- A sink call that returned no error. -/
def Event.isAccepted {μ ε : Type} : Event μ ε → Bool
  | Event.sink _ _ _ none => true
  | _ => false

/-- A sink call that returned an error. -/
def Event.isRejected {μ ε : Type} : Event μ ε → Bool
  | Event.sink _ _ _ (some _) => true
  | _ => false

/-- A sink call. -/
def Event.isSink {μ ε : Type} : Event μ ε → Bool
  | Event.sink _ _ _ _ => true
  | _ => false

/-- The metrics the sink accepted, in call order. -/
def accepted {μ ε : Type} : List (Event μ ε) → List (Metric μ)
  | [] => []
  | Event.sink _ _ batch none :: tr => batch ++ accepted tr
  | _ :: tr => accepted tr

/-- The batches passed to the sink, in call order. -/
def sinkBatches {μ ε : Type} : List (Event μ ε) → List (List (Metric μ))
  | [] => []
  | Event.sink _ _ batch _ :: tr => batch :: sinkBatches tr
  | _ :: tr => sinkBatches tr

/-- The events a run appended to the trace that had length `n` before. -/
def newEvents {μ ε : Type} (n : Nat) (ro : RunningOutput μ ε) : List (Event μ ε) :=
  ro.trace.drop n

/-- The state after `n` consecutive calls of `Write` (return values dropped). -/
def WriteN {μ ε : Type} (env : Env μ ε) : Nat → RunningOutput μ ε → RunningOutput μ ε
  | 0, ro => ro
  | n + 1, ro => WriteN env n (ro.Write env).2

/-- The state after the calls `AddMetric(m1)`, ..., `AddMetric(mk)`. -/
def AddMetrics {μ ε : Type} (env : Env μ ε) :
    List (Metric μ) → RunningOutput μ ε → RunningOutput μ ε
  | [], ro => ro
  | m :: ms, ro => AddMetrics env ms (ro.AddMetric env m)

/-- Consecutive chunks of length `b` of a list (the last one may be shorter);
`fuel` bounds the number of chunks. -/
def chunksAux {α : Type} (b : Nat) : Nat → List α → List (List α)
  | 0, _ => []
  | fuel + 1, xs =>
    match xs with
    | [] => []
    | x :: rest => (x :: rest).take b :: chunksAux b fuel ((x :: rest).drop b)

/-- Consecutive chunks of length `b` of a list. -/
def chunks {α : Type} (b : Nat) (xs : List α) : List (List α) :=
  chunksAux b xs.length xs

/-- The trace of a rotation: each batch is extracted from a queue and put
onto `failMetrics` at once, without a sink call. -/
def rotation {μ ε : Type} : List (Src × Nat × List (Metric μ)) → List (Event μ ε)
  | [] => []
  | (src, n, batch) :: rest =>
    Event.extract src n batch :: Event.requeue batch :: rotation rest

/-- The sizes the retry loop of `Write` asks `failMetrics.Batch` for: `nFails / b`
times the batch size, then the remainder. -/
def retrySizes (nFails b : Nat) : List Nat :=
  List.replicate (nFails / b) b ++ [nFails % b]

/-- Shape of the events of one flush cycle, given the value of the local
`err`: without an error no sink call was rejected; with the error `x` there is
one rejected sink call, it returned `x`, no call before it was rejected, its
batch was put back onto `failMetrics`, and everything after it is a rotation. -/
def ShortCircuit {μ ε : Type} (new : List (Event μ ε)) : Option ε → Prop
  | none => ∀ ev ∈ new, ev.isRejected = false
  | some x => ∃ pre src fl B rest,
      new = pre ++ Event.sink src fl B (some x) :: Event.requeue B :: rotation rest ∧
      ∀ ev ∈ pre, ev.isRejected = false

/-- Every sink call of the retry loop has a non-empty batch taken from
`failMetrics`. -/
def RetrySinks {μ ε : Type} (new : List (Event μ ε)) : Prop :=
  ∀ s fl B e, Event.sink s fl B e ∈ new → B ≠ [] ∧ s = Src.failQ

/-- A batch taken from `metrics` is passed to the sink only when `failMetrics`
is empty at that moment. -/
def RetriesFirst {μ ε : Type} (evs : List (Event μ ε)) : Prop :=
  ∀ fl B e, Event.sink Src.metricsQ fl B e ∈ evs → fl = 0

/-! ## Concrete pipelines -/

/-- A pipeline with batch size 2 and buffer limit 10 holding the given queues. -/
def exPipeline (F M : List (Metric Nat)) : RunningOutput Nat Nat :=
  { MetricBufferLimit := 10, MetricBatchSize := 2, MetricsWritten := 0, BufferSize := 0,
    WriteTime := 0, metrics := { limit := 10, buf := M }, failMetrics := { limit := 10, buf := F },
    trace := [] }

/-- A sink that accepts every call. -/
def exAcceptAll : Env Nat Nat :=
  { sinkWrite := fun _ _ => none, elapsed := fun _ _ => 1 }

/-- A sink that rejects its first call (error 7) and accepts every later one. -/
def exRejectFirst : Env Nat Nat :=
  { sinkWrite := fun tr _ => if tr.any Event.isSink then none else some 7,
    elapsed := fun _ _ => 1 }

/-- A sink that rejects the batch `[1, 2]` (error 7) and accepts every other batch. -/
def exRejectAB : Env Nat Nat :=
  { sinkWrite := fun _ batch => if batch = [some 1, some 2] then some 7 else none,
    elapsed := fun _ _ => 1 }

/-! ## Observations on the retry loop -/

/-- The sizes requested from `failMetrics.Batch`, one per iteration of the retry
loop, in program order. -/
def failRequests {μ ε : Type} : List (Event μ ε) → List Nat
  | [] => []
  | Event.extract Src.failQ n _ :: tr => n :: failRequests tr
  | _ :: tr => failRequests tr

/-- The batches `failMetrics.Batch` returned, in program order. -/
def extractedFail {μ ε : Type} : List (Event μ ε) → List (List (Metric μ))
  | [] => []
  | Event.extract Src.failQ _ batch :: tr => batch :: extractedFail tr
  | _ :: tr => extractedFail tr

/-- The batches taken from `failMetrics` that were passed to the sink, in call
order. -/
def retriedBatches {μ ε : Type} : List (Event μ ε) → List (List (Metric μ))
  | [] => []
  | Event.sink Src.failQ _ batch _ :: tr => batch :: retriedBatches tr
  | _ :: tr => retriedBatches tr

/-- One call on a `RunningOutput`: `AddMetric(m)` or `Write()`. -/
inductive Op (μ : Type) where
  | add (m : Metric μ)
  | flush

/-- The state after a finite sequence of `AddMetric` and `Write` calls (the
return values of `Write` are dropped). -/
def runOps {μ ε : Type} (env : Env μ ε) : List (Op μ) → RunningOutput μ ε → RunningOutput μ ε
  | [], ro => ro
  | Op.add m :: ops, ro => runOps env ops (ro.AddMetric env m)
  | Op.flush :: ops, ro => runOps env ops (ro.Write env).2

/-! ## Construction (`running_output.go`, lines 9-47) -/

/-- Default size of metrics batch size (line 11). -/
def DEFAULT_METRIC_BATCH_SIZE : Nat := 1000

/-- Default number of metrics kept (line 14). -/
def DEFAULT_METRIC_BUFFER_LIMIT : Nat := 10000

/-- The struct `OutputConfig` (lines 114-116). -/
structure OutputConfig where
  Name : String
  deriving DecidableEq

/-- The `RunningOutput` struct as a composite literal builds it: the queue
pointers `metrics` and `failMetrics` may be `nil` (`none`). The `Stat` fields and
the mutex are left out. -/
structure RunningOutputRaw (μ ε : Type) where
  Name : String
  Output : Env μ ε
  Config : OutputConfig
  MetricBufferLimit : Nat
  MetricBatchSize : Nat
  metrics : Option (Buffer μ)
  failMetrics : Option (Buffer μ)

/-- The function `NewRunningOutput` (lines 36-47): the literal sets `Name`,
`Output` and `Config`; every other field keeps Go's zero value. -/
def NewRunningOutput {μ ε : Type} (name : String) (output : Env μ ε) (conf : OutputConfig) :
    RunningOutputRaw μ ε :=
  { Name := name, Output := output, Config := conf,
    MetricBufferLimit := 0, MetricBatchSize := 0, metrics := none, failMetrics := none }

/-! ## Serializer selection (`registry.go`) -/

/-- The struct `SerializerConfig` (lines 26-39); `TimestampUnits` is a
`time.Duration`, an integer number of nanoseconds. -/
structure SerializerConfig where
  DataFormat : String
  Prefix : String
  Template : String
  TimestampUnits : Int
  deriving DecidableEq

/-- Modelled from the spec: the serializer types `InfluxSerializer` and
`JsonSerializer`, whose declarations are not in the repository files. The
line-protocol encoder has no state; the JSON encoder holds its timestamp unit.
A `Serializer` interface value is `Option Serializer`, `none` being `nil`. -/
inductive Serializer where
  | InfluxSerializer
  | JsonSerializer (TimestampUnits : Int)
  deriving DecidableEq

/-- The function `NewInfluxSerializer` (lines 60-62). -/
def NewInfluxSerializer : Option Serializer × Option String :=
  (some Serializer.InfluxSerializer, none)

/-- The function `NewJsonSerializer` (lines 56-58). -/
def NewJsonSerializer (timestampUnits : Int) : Option Serializer × Option String :=
  (some (Serializer.JsonSerializer timestampUnits), none)

/-- The function `NewSerializer` (lines 42-54). An `error` value is its message;
`fmt.Errorf("Invalid data format: %s", s)` is the message followed by `s`. -/
def NewSerializer (config : SerializerConfig) : Option Serializer × Option String :=
  if config.DataFormat = "influx" then
    NewInfluxSerializer
  else if config.DataFormat = "json" then
    NewJsonSerializer config.TimestampUnits
  else
    (none, some ("Invalid data format: " ++ config.DataFormat))

/-! ## Step lemmas -/

section Lemmas

variable {μ ε : Type}

theorem write_spec (env : Env μ ε) (ro : RunningOutput μ ε) (src : Src)
    (ms : List (Metric μ)) :
    (ms = [] ∧ ro.write env src ms = (none, ro)) ∨
    (ms ≠ [] ∧ env.sinkWrite ro.trace ms = none ∧
      ro.write env src ms = (none,
        { ro with trace := ro.trace ++ [Event.sink src ro.failMetrics.Len ms none],
                  MetricsWritten := ro.MetricsWritten + (ms.length : Int),
                  WriteTime := ro.WriteTime + env.elapsed ro.trace ms })) ∨
    (ms ≠ [] ∧ ∃ e, env.sinkWrite ro.trace ms = some e ∧
      ro.write env src ms = (some e,
        { ro with trace := ro.trace ++ [Event.sink src ro.failMetrics.Len ms (some e)] })) := by
  by_cases h : ms = []
  · left
    subst h
    exact ⟨rfl, rfl⟩
  · right
    have hlen : ms.length ≠ 0 := by
      intro h0
      exact h (List.length_eq_zero.mp h0)
    cases hs : env.sinkWrite ro.trace ms with
    | none =>
      left
      refine ⟨h, rfl, ?_⟩
      simp only [RunningOutput.write, hlen, if_false, hs]
    | some e =>
      right
      refine ⟨h, e, rfl, ?_⟩
      simp only [RunningOutput.write, hlen, if_false, hs]

theorem retryBody_spec (env : Env μ ε) (bs : Nat) (st : Option ε × RunningOutput μ ε) :
    (retryBody env bs st).2.metrics = st.2.metrics ∧
    (retryBody env bs st).2.MetricBatchSize = st.2.MetricBatchSize ∧
    (retryBody env bs st).2.MetricBufferLimit = st.2.MetricBufferLimit ∧
    ((st.1 = none ∧ (retryBody env bs st).1 = none ∧
        (retryBody env bs st).2.failMetrics = (st.2.failMetrics.Batch bs).2 ∧
        (((st.2.failMetrics.Batch bs).1 = [] ∧
            (retryBody env bs st).2.trace =
              st.2.trace ++ [Event.extract Src.failQ bs (st.2.failMetrics.Batch bs).1]) ∨
         ((st.2.failMetrics.Batch bs).1 ≠ [] ∧
            (retryBody env bs st).2.trace =
              st.2.trace ++ [Event.extract Src.failQ bs (st.2.failMetrics.Batch bs).1,
                Event.sink Src.failQ (st.2.failMetrics.Batch bs).2.Len
                  (st.2.failMetrics.Batch bs).1 none]))) ∨
     (∃ e, st.1 = none ∧ (retryBody env bs st).1 = some e ∧
        (st.2.failMetrics.Batch bs).1 ≠ [] ∧
        (retryBody env bs st).2.failMetrics =
          (st.2.failMetrics.Batch bs).2.Add (st.2.failMetrics.Batch bs).1 ∧
        (retryBody env bs st).2.trace =
          st.2.trace ++ [Event.extract Src.failQ bs (st.2.failMetrics.Batch bs).1,
            Event.sink Src.failQ (st.2.failMetrics.Batch bs).2.Len
              (st.2.failMetrics.Batch bs).1 (some e),
            Event.requeue (st.2.failMetrics.Batch bs).1]) ∨
     (∃ e, st.1 = some e ∧ (retryBody env bs st).1 = some e ∧
        (retryBody env bs st).2.failMetrics =
          (st.2.failMetrics.Batch bs).2.Add (st.2.failMetrics.Batch bs).1 ∧
        (retryBody env bs st).2.trace =
          st.2.trace ++ [Event.extract Src.failQ bs (st.2.failMetrics.Batch bs).1,
            Event.requeue (st.2.failMetrics.Batch bs).1])) := by
  obtain ⟨err, ro⟩ := st
  cases err with
  | some e =>
    refine ⟨rfl, rfl, rfl, Or.inr (Or.inr ⟨e, rfl, rfl, rfl, ?_⟩)⟩
    simp [retryBody]
  | none =>
    rcases write_spec env
      { ro with failMetrics := (ro.failMetrics.Batch bs).2,
                trace := ro.trace ++ [Event.extract Src.failQ bs (ro.failMetrics.Batch bs).1] }
      Src.failQ (ro.failMetrics.Batch bs).1 with ⟨h1, h2⟩ | ⟨h1, _, h2⟩ | ⟨h1, e, _, h2⟩
    · simp only [retryBody, h2]
      simp [h1]
    · simp only [retryBody, h2]
      simp [h1]
    · simp only [retryBody, h2]
      simp [h1]

theorem finalPhase_spec (env : Env μ ε) (st : Option ε × RunningOutput μ ε) :
    (finalPhase env st).2.metrics = (st.2.metrics.Batch st.2.MetricBatchSize).2 ∧
    (finalPhase env st).2.MetricBatchSize = st.2.MetricBatchSize ∧
    (finalPhase env st).2.MetricBufferLimit = st.2.MetricBufferLimit ∧
    ((st.1 = none ∧ (finalPhase env st).1 = Outcome.ret none ∧
        (finalPhase env st).2.failMetrics = st.2.failMetrics ∧
        (((st.2.metrics.Batch st.2.MetricBatchSize).1 = [] ∧
            (finalPhase env st).2.trace =
              st.2.trace ++ [Event.extract Src.metricsQ st.2.MetricBatchSize
                (st.2.metrics.Batch st.2.MetricBatchSize).1]) ∨
         ((st.2.metrics.Batch st.2.MetricBatchSize).1 ≠ [] ∧
            (finalPhase env st).2.trace =
              st.2.trace ++ [Event.extract Src.metricsQ st.2.MetricBatchSize
                  (st.2.metrics.Batch st.2.MetricBatchSize).1,
                Event.sink Src.metricsQ st.2.failMetrics.Len
                  (st.2.metrics.Batch st.2.MetricBatchSize).1 none]))) ∨
     (∃ e, st.1 = none ∧ (finalPhase env st).1 = Outcome.ret (some e) ∧
        (st.2.metrics.Batch st.2.MetricBatchSize).1 ≠ [] ∧
        (finalPhase env st).2.failMetrics =
          st.2.failMetrics.Add (st.2.metrics.Batch st.2.MetricBatchSize).1 ∧
        (finalPhase env st).2.trace =
          st.2.trace ++ [Event.extract Src.metricsQ st.2.MetricBatchSize
              (st.2.metrics.Batch st.2.MetricBatchSize).1,
            Event.sink Src.metricsQ st.2.failMetrics.Len
              (st.2.metrics.Batch st.2.MetricBatchSize).1 (some e),
            Event.requeue (st.2.metrics.Batch st.2.MetricBatchSize).1]) ∨
     (∃ e, st.1 = some e ∧ (finalPhase env st).1 = Outcome.ret (some e) ∧
        (finalPhase env st).2.failMetrics =
          st.2.failMetrics.Add (st.2.metrics.Batch st.2.MetricBatchSize).1 ∧
        (finalPhase env st).2.trace =
          st.2.trace ++ [Event.extract Src.metricsQ st.2.MetricBatchSize
              (st.2.metrics.Batch st.2.MetricBatchSize).1,
            Event.requeue (st.2.metrics.Batch st.2.MetricBatchSize).1])) := by
  obtain ⟨err, ro⟩ := st
  cases err with
  | some e =>
    refine ⟨rfl, rfl, rfl, Or.inr (Or.inr ⟨e, rfl, rfl, rfl, ?_⟩)⟩
    simp [finalPhase]
  | none =>
    rcases write_spec env
      { ro with metrics := (ro.metrics.Batch ro.MetricBatchSize).2,
                trace := ro.trace ++ [Event.extract Src.metricsQ ro.MetricBatchSize
                  (ro.metrics.Batch ro.MetricBatchSize).1] }
      Src.metricsQ (ro.metrics.Batch ro.MetricBatchSize).1 with
      ⟨h1, h2⟩ | ⟨h1, _, h2⟩ | ⟨h1, e, _, h2⟩
    · simp only [finalPhase, h2]
      simp [h1]
    · simp only [finalPhase, h2]
      simp [h1]
    · simp only [finalPhase, h2]
      simp [h1]

theorem retryLoop_eq_foldl (env : Env μ ε) (nFails b nBatches : Nat) :
    ∀ (k i : Nat) (st : Option ε × RunningOutput μ ε), i + (k + 1) = nBatches →
      retryLoop env nFails b nBatches (k + 1) i b st =
        (List.replicate k b ++ [nFails % b]).foldl (fun s bs => retryBody env bs s) st := by
  intro k
  induction k with
  | zero =>
    intro i st h
    have hi : i = nBatches - 1 := by omega
    simp [retryLoop, hi]
  | succ k ih =>
    intro i st h
    have hi : ¬ (i = nBatches - 1) := by omega
    rw [retryLoop]
    simp only [hi, if_false]
    rw [ih (i + 1) _ (by omega)]
    simp [List.replicate_succ]

theorem retryPhase_empty (env : Env μ ε) (ro : RunningOutput μ ε) (n : Nat)
    (hF : ro.failMetrics.buf = []) : retryPhase env ro n = some (none, ro) := by
  simp [retryPhase, Buffer.IsEmpty, hF]

theorem retryPhase_panic (env : Env μ ε) (ro : RunningOutput μ ε) (n : Nat)
    (hF : ro.failMetrics.buf ≠ []) (hb : ro.MetricBatchSize = 0) :
    retryPhase env ro n = none := by
  simp [retryPhase, Buffer.IsEmpty, hF, hb]

theorem retryPhase_loop (env : Env μ ε) (ro : RunningOutput μ ε) (n : Nat)
    (hF : ro.failMetrics.buf ≠ []) (hb : ro.MetricBatchSize ≠ 0) :
    retryPhase env ro n =
      some ((retrySizes n ro.MetricBatchSize).foldl
        (fun s bs => retryBody env bs s) (none, ro)) := by
  unfold retryPhase
  simp only [Buffer.IsEmpty, hF, hb, List.isEmpty_eq_true, Bool.not_eq_true', decide_False,
        Bool.not_false, if_true, if_false]
  rw [retryLoop_eq_foldl env _ _ _ _ 0 _ (by omega)]
  have hE : ro.failMetrics.buf.isEmpty = false := by
    cases h : ro.failMetrics.buf with
    | nil => exact absurd h hF
    | cons a l => rfl
  simp [hE, retrySizes]


/-! ## Shape of the events of one flush cycle -/

theorem rotation_append (a b : List (Src × Nat × List (Metric μ))) :
    (rotation (a ++ b) : List (Event μ ε)) = rotation a ++ rotation b := by
  induction a with
  | nil => rfl
  | cons t a ih =>
    obtain ⟨s, n, batch⟩ := t
    simp [rotation, ih]

theorem rotation_not_sink (rest : List (Src × Nat × List (Metric μ))) :
    ∀ ev ∈ (rotation rest : List (Event μ ε)), ev.isSink = false := by
  induction rest with
  | nil => intro ev h; simp [rotation] at h
  | cons t a ih =>
    obtain ⟨s, n, batch⟩ := t
    intro ev h
    simp only [rotation, List.mem_cons] at h
    rcases h with h | h | h
    · subst h; rfl
    · subst h; rfl
    · exact ih ev h

theorem retryBody_shortCircuit (env : Env μ ε) (bs : Nat) (st : Option ε × RunningOutput μ ε)
    (base new : List (Event μ ε)) (ht : st.2.trace = base ++ new)
    (h : ShortCircuit new st.1) :
    ∃ new', (retryBody env bs st).2.trace = base ++ new' ∧
      ShortCircuit new' (retryBody env bs st).1 := by
  obtain ⟨_, _, _, hc⟩ := retryBody_spec env bs st
  rcases hc with ⟨h1, h2, _, hc⟩ | ⟨e, h1, h2, _, _, h5⟩ | ⟨e, h1, h2, _, h5⟩
  · rw [h1] at h
    rcases hc with ⟨_, h5⟩ | ⟨_, h5⟩
    · refine ⟨new ++ [_], by rw [h5, ht, List.append_assoc], ?_⟩
      rw [h2]
      intro ev hev
      simp only [List.mem_append, List.mem_singleton] at hev
      rcases hev with hev | hev
      · exact h ev hev
      · subst hev; rfl
    · refine ⟨new ++ [_, _], by rw [h5, ht, List.append_assoc], ?_⟩
      rw [h2]
      intro ev hev
      simp only [List.mem_append, List.mem_cons, List.mem_singleton, List.not_mem_nil,
        or_false] at hev
      rcases hev with hev | hev | hev
      · exact h ev hev
      · subst hev; rfl
      · subst hev; rfl
  · rw [h1] at h
    refine ⟨new ++ [_, _, _], by rw [h5, ht, List.append_assoc], ?_⟩
    rw [h2]
    refine ⟨new ++ [Event.extract Src.failQ bs (st.2.failMetrics.Batch bs).1], Src.failQ,
      (st.2.failMetrics.Batch bs).2.Len, (st.2.failMetrics.Batch bs).1, [], ?_, ?_⟩
    · simp [rotation]
    · intro ev hev
      simp only [List.mem_append, List.mem_singleton] at hev
      rcases hev with hev | hev
      · exact h ev hev
      · subst hev; rfl
  · rw [h1] at h
    obtain ⟨pre, src, fl, B, rest, hnew, hpre⟩ := h
    refine ⟨new ++ [_, _], by rw [h5, ht, List.append_assoc], ?_⟩
    rw [h2]
    refine ⟨pre, src, fl, B, rest ++ [(Src.failQ, bs, (st.2.failMetrics.Batch bs).1)], ?_, hpre⟩
    rw [hnew, rotation_append]
    simp [rotation]

theorem foldl_shortCircuit (env : Env μ ε) (sizes : List Nat) :
    ∀ (st : Option ε × RunningOutput μ ε) (base new : List (Event μ ε)),
      st.2.trace = base ++ new → ShortCircuit new st.1 →
      ∃ new', (sizes.foldl (fun s bs => retryBody env bs s) st).2.trace = base ++ new' ∧
        ShortCircuit new' (sizes.foldl (fun s bs => retryBody env bs s) st).1 := by
  induction sizes with
  | nil => intro st base new ht h; exact ⟨new, ht, h⟩
  | cons bs sizes ih =>
    intro st base new ht h
    obtain ⟨new1, ht1, h1⟩ := retryBody_shortCircuit env bs st base new ht h
    exact ih (retryBody env bs st) base new1 ht1 h1

theorem finalPhase_shortCircuit (env : Env μ ε) (st : Option ε × RunningOutput μ ε)
    (base new : List (Event μ ε)) (ht : st.2.trace = base ++ new)
    (h : ShortCircuit new st.1) :
    ∃ err new', (finalPhase env st).1 = Outcome.ret err ∧
      (finalPhase env st).2.trace = base ++ new' ∧ ShortCircuit new' err := by
  obtain ⟨_, _, _, hc⟩ := finalPhase_spec env st
  rcases hc with ⟨h1, h2, _, hc⟩ | ⟨e, h1, h2, _, _, h5⟩ | ⟨e, h1, h2, _, h5⟩
  · rw [h1] at h
    rcases hc with ⟨_, h5⟩ | ⟨_, h5⟩
    · refine ⟨none, new ++ [_], h2, by rw [h5, ht, List.append_assoc], ?_⟩
      intro ev hev
      simp only [List.mem_append, List.mem_singleton] at hev
      rcases hev with hev | hev
      · exact h ev hev
      · subst hev; rfl
    · refine ⟨none, new ++ [_, _], h2, by rw [h5, ht, List.append_assoc], ?_⟩
      intro ev hev
      simp only [List.mem_append, List.mem_cons, List.mem_singleton, List.not_mem_nil,
        or_false] at hev
      rcases hev with hev | hev | hev
      · exact h ev hev
      · subst hev; rfl
      · subst hev; rfl
  · rw [h1] at h
    refine ⟨some e, new ++ [_, _, _], h2, by rw [h5, ht, List.append_assoc], ?_⟩
    refine ⟨new ++ [Event.extract Src.metricsQ st.2.MetricBatchSize
        (st.2.metrics.Batch st.2.MetricBatchSize).1], Src.metricsQ,
      st.2.failMetrics.Len, (st.2.metrics.Batch st.2.MetricBatchSize).1, [], ?_, ?_⟩
    · simp [rotation]
    · intro ev hev
      simp only [List.mem_append, List.mem_singleton] at hev
      rcases hev with hev | hev
      · exact h ev hev
      · subst hev; rfl
  · rw [h1] at h
    obtain ⟨pre, src, fl, B, rest, hnew, hpre⟩ := h
    refine ⟨some e, new ++ [_, _], h2, by rw [h5, ht, List.append_assoc], ?_⟩
    refine ⟨pre, src, fl, B,
      rest ++ [(Src.metricsQ, st.2.MetricBatchSize,
        (st.2.metrics.Batch st.2.MetricBatchSize).1)], ?_, hpre⟩
    rw [hnew, rotation_append]
    simp [rotation]

theorem Write_empty (env : Env μ ε) (ro : RunningOutput μ ε) (hF : ro.failMetrics.buf = []) :
    ro.Write env = finalPhase env
      (none, ro.setBufferSize ro.failMetrics.Len ro.metrics.Len) := by
  unfold RunningOutput.Write
  simp only []
  rw [retryPhase_empty env (ro.setBufferSize ro.failMetrics.Len ro.metrics.Len) _ hF]

theorem Write_panic (env : Env μ ε) (ro : RunningOutput μ ε) (hF : ro.failMetrics.buf ≠ [])
    (hb : ro.MetricBatchSize = 0) :
    ro.Write env = (Outcome.panic,
      ro.setBufferSize ro.failMetrics.Len ro.metrics.Len) := by
  unfold RunningOutput.Write
  simp only []
  rw [retryPhase_panic env (ro.setBufferSize ro.failMetrics.Len ro.metrics.Len) _ hF hb]

theorem Write_loop (env : Env μ ε) (ro : RunningOutput μ ε) (hF : ro.failMetrics.buf ≠ [])
    (hb : ro.MetricBatchSize ≠ 0) :
    ro.Write env = finalPhase env
      ((retrySizes ro.failMetrics.Len ro.MetricBatchSize).foldl
        (fun s bs => retryBody env bs s)
        (none, ro.setBufferSize ro.failMetrics.Len ro.metrics.Len)) := by
  unfold RunningOutput.Write
  simp only []
  rw [retryPhase_loop env (ro.setBufferSize ro.failMetrics.Len ro.metrics.Len) _ hF hb]
  rfl

theorem Write_shortCircuit (env : Env μ ε) (ro : RunningOutput μ ε) :
    ∃ new, (ro.Write env).2.trace = ro.trace ++ new ∧
      (((ro.Write env).1 = Outcome.panic ∧ new = [] ∧ ro.MetricBatchSize = 0 ∧
          ro.failMetrics.buf ≠ []) ∨
       (∃ err, (ro.Write env).1 = Outcome.ret err ∧ ShortCircuit new err ∧
          (ro.failMetrics.buf = [] ∨ ro.MetricBatchSize ≠ 0))) := by
  have h0 : ShortCircuit ([] : List (Event μ ε)) none := by
    intro ev hev; simp at hev
  by_cases hF : ro.failMetrics.buf = []
  · rw [Write_empty env ro hF]
    obtain ⟨err, new, h1, h2, h3⟩ := finalPhase_shortCircuit env
      (none, ro.setBufferSize ro.failMetrics.Len ro.metrics.Len)
      ro.trace [] (by simp [RunningOutput.setBufferSize]) h0
    exact ⟨new, h2, Or.inr ⟨err, h1, h3, Or.inl hF⟩⟩
  · by_cases hb : ro.MetricBatchSize = 0
    · rw [Write_panic env ro hF hb]
      exact ⟨[], by simp [RunningOutput.setBufferSize], Or.inl ⟨rfl, rfl, hb, hF⟩⟩
    · rw [Write_loop env ro hF hb]
      obtain ⟨new1, ht1, hs1⟩ := foldl_shortCircuit env
        (retrySizes ro.failMetrics.Len ro.MetricBatchSize)
        (none, ro.setBufferSize ro.failMetrics.Len ro.metrics.Len)
        ro.trace [] (by simp [RunningOutput.setBufferSize]) h0
      obtain ⟨err, new, h1, h2, h3⟩ := finalPhase_shortCircuit env _ ro.trace new1 ht1 hs1
      exact ⟨new, h2, Or.inr ⟨err, h1, h3, Or.inr hb⟩⟩


/-! ## Conservation of the queued metrics -/

theorem accepted_append (a b : List (Event μ ε)) :
    accepted (a ++ b) = accepted a ++ accepted b := by
  induction a with
  | nil => rfl
  | cons ev a ih =>
    cases ev with
    | extract s n batch => simpa [accepted] using ih
    | requeue batch => simpa [accepted] using ih
    | sink s fl batch err =>
      cases err with
      | none => simp [accepted, ih]
      | some e => simpa [accepted] using ih

theorem Buffer.Add_buf_of_le (q : Buffer μ) (ms : List (Metric μ))
    (h : (q.buf ++ ms).length ≤ q.limit) : (q.Add ms).buf = q.buf ++ ms := by
  have h0 : (q.buf ++ ms).length - q.limit = 0 := by omega
  simp only [Buffer.Add, h0, List.drop_zero]

theorem Buffer.Add_limit (q : Buffer μ) (ms : List (Metric μ)) :
    (q.Add ms).limit = q.limit := rfl

theorem Buffer.Batch_limit (q : Buffer μ) (n : Nat) : (q.Batch n).2.limit = q.limit := rfl

theorem Buffer.Batch_fst (q : Buffer μ) (n : Nat) : (q.Batch n).1 = q.buf.take n := rfl

theorem Buffer.Batch_snd_buf (q : Buffer μ) (n : Nat) : (q.Batch n).2.buf = q.buf.drop n := rfl

theorem retryBody_conserve (env : Env μ ε) (bs : Nat) (st : Option ε × RunningOutput μ ε)
    (U R : List (Metric μ)) (hbuf : st.2.failMetrics.buf = U ++ R) (hbs : bs ≤ U.length)
    (hcap : (U ++ R).length ≤ st.2.failMetrics.limit) (hR : st.1 = none → R = []) :
    ∃ evs R', (retryBody env bs st).2.trace = st.2.trace ++ evs ∧
      (retryBody env bs st).2.failMetrics.buf = U.drop bs ++ R' ∧
      R ++ U.take bs = accepted evs ++ R' ∧
      ((retryBody env bs st).1 = none → R' = []) ∧
      (U.drop bs ++ R').length ≤ (retryBody env bs st).2.failMetrics.limit ∧
      (retryBody env bs st).2.failMetrics.limit = st.2.failMetrics.limit := by
  have hb1 : (st.2.failMetrics.Batch bs).1 = U.take bs := by
    rw [Buffer.Batch_fst, hbuf, List.take_append_of_le_length hbs]
  have hb2 : (st.2.failMetrics.Batch bs).2.buf = U.drop bs ++ R := by
    rw [Buffer.Batch_snd_buf, hbuf, List.drop_append_of_le_length hbs]
  have hlen : (U.drop bs ++ R ++ U.take bs).length ≤ st.2.failMetrics.limit := by
    simp only [List.length_append, List.length_drop, List.length_take] at hcap ⊢
    omega
  have hadd : ((st.2.failMetrics.Batch bs).2.Add (st.2.failMetrics.Batch bs).1).buf =
      U.drop bs ++ (R ++ U.take bs) := by
    rw [Buffer.Add_buf_of_le, hb1, hb2, List.append_assoc]
    rw [hb1, hb2, Buffer.Batch_limit]
    exact hlen
  obtain ⟨_, _, _, hc⟩ := retryBody_spec env bs st
  rcases hc with ⟨h1, h2, h3, hc⟩ | ⟨e, h1, h2, _, h4, h5⟩ | ⟨e, h1, h2, h4, h5⟩
  · have hRn := hR h1
    subst hRn
    have hl : (retryBody env bs st).2.failMetrics.limit = st.2.failMetrics.limit := by
      rw [h3, Buffer.Batch_limit]
    have hle : (U.drop bs ++ []).length ≤ (retryBody env bs st).2.failMetrics.limit := by
      rw [hl]
      simp only [List.length_append, List.length_drop, List.length_nil] at hcap ⊢
      omega
    rcases hc with ⟨h6, h5⟩ | ⟨_, h5⟩
    · refine ⟨_, [], h5, by rw [h3, hb2], ?_, fun _ => rfl, hle, hl⟩
      rw [hb1] at h6
      simp [accepted, h6]
    · refine ⟨_, [], h5, by rw [h3, hb2], ?_, fun _ => rfl, hle, hl⟩
      simp [accepted, hb1]
  · have hRn := hR h1
    subst hRn
    have hl : (retryBody env bs st).2.failMetrics.limit = st.2.failMetrics.limit := by
      rw [h4, Buffer.Add_limit, Buffer.Batch_limit]
    refine ⟨_, [] ++ U.take bs, h5, by rw [h4, hadd], ?_, ?_, ?_, hl⟩
    · simp [accepted]
    · intro h; rw [h2] at h; cases h
    · rw [hl]; simpa using hlen
  · have hl : (retryBody env bs st).2.failMetrics.limit = st.2.failMetrics.limit := by
      rw [h4, Buffer.Add_limit, Buffer.Batch_limit]
    refine ⟨_, R ++ U.take bs, h5, by rw [h4, hadd], ?_, ?_, ?_, hl⟩
    · simp [accepted]
    · intro h; rw [h2] at h; cases h
    · rw [hl]; simpa [List.append_assoc] using hlen

theorem retryBody_frame (env : Env μ ε) (bs : Nat) (st : Option ε × RunningOutput μ ε) :
    (retryBody env bs st).2.metrics = st.2.metrics ∧
    (retryBody env bs st).2.MetricBatchSize = st.2.MetricBatchSize ∧
    (retryBody env bs st).2.MetricBufferLimit = st.2.MetricBufferLimit := by
  obtain ⟨h1, h2, h3, _⟩ := retryBody_spec env bs st
  exact ⟨h1, h2, h3⟩

theorem foldl_frame (env : Env μ ε) (sizes : List Nat) :
    ∀ st : Option ε × RunningOutput μ ε,
      (sizes.foldl (fun s bs => retryBody env bs s) st).2.metrics = st.2.metrics ∧
      (sizes.foldl (fun s bs => retryBody env bs s) st).2.MetricBatchSize =
        st.2.MetricBatchSize ∧
      (sizes.foldl (fun s bs => retryBody env bs s) st).2.MetricBufferLimit =
        st.2.MetricBufferLimit := by
  induction sizes with
  | nil => intro st; exact ⟨rfl, rfl, rfl⟩
  | cons bs sizes ih =>
    intro st
    obtain ⟨h1, h2, h3⟩ := ih (retryBody env bs st)
    obtain ⟨g1, g2, g3⟩ := retryBody_frame env bs st
    exact ⟨h1.trans g1, h2.trans g2, h3.trans g3⟩

theorem foldl_conserve (env : Env μ ε) (sizes : List Nat) :
    ∀ (st : Option ε × RunningOutput μ ε) (U R : List (Metric μ)),
      st.2.failMetrics.buf = U ++ R → sizes.sum ≤ U.length →
      (U ++ R).length ≤ st.2.failMetrics.limit → (st.1 = none → R = []) →
      ∃ evs R', (sizes.foldl (fun s bs => retryBody env bs s) st).2.trace =
          st.2.trace ++ evs ∧
        (sizes.foldl (fun s bs => retryBody env bs s) st).2.failMetrics.buf =
          U.drop sizes.sum ++ R' ∧
        R ++ U.take sizes.sum = accepted evs ++ R' ∧
        ((sizes.foldl (fun s bs => retryBody env bs s) st).1 = none → R' = []) ∧
        (sizes.foldl (fun s bs => retryBody env bs s) st).2.failMetrics.limit =
          st.2.failMetrics.limit := by
  induction sizes with
  | nil =>
    intro st U R hbuf _ _ hR
    exact ⟨[], R, by simp, by simpa using hbuf, by simp [accepted], hR, rfl⟩
  | cons bs sizes ih =>
    intro st U R hbuf hsum hcap hR
    simp only [List.sum_cons] at hsum
    obtain ⟨evs1, R1, ht1, hb1, hc1, hn1, hcap1, hl1⟩ :=
      retryBody_conserve env bs st U R hbuf (by omega) hcap hR
    obtain ⟨evs2, R2, ht2, hb2, hc2, hn2, hl2⟩ :=
      ih (retryBody env bs st) (U.drop bs) R1 hb1
        (by simp only [List.length_drop]; omega) hcap1 hn1
    refine ⟨evs1 ++ evs2, R2, ?_, ?_, ?_, hn2, ?_⟩
    · simp only [List.foldl_cons]
      rw [ht2, ht1, List.append_assoc]
    · simp only [List.foldl_cons, List.sum_cons]
      rw [hb2, List.drop_drop, Nat.add_comm]
    · simp only [List.sum_cons]
      rw [accepted_append, List.append_assoc, ← hc2, ← List.append_assoc, ← hc1,
        List.append_assoc, List.take_add]
    · simp only [List.foldl_cons]
      rw [hl2, hl1]

theorem retrySizes_sum (n b : Nat) : (retrySizes n b).sum = n := by
  simp only [retrySizes, List.sum_append, List.sum_replicate, List.sum_cons, List.sum_nil,
    smul_eq_mul, Nat.add_zero]
  exact Nat.div_add_mod' n b

theorem finalPhase_conserve (env : Env μ ε) (st : Option ε × RunningOutput μ ε)
    (hcap : (st.2.failMetrics.buf ++ st.2.metrics.buf.take st.2.MetricBatchSize).length ≤
      st.2.failMetrics.limit)
    (hR : st.1 = none → st.2.failMetrics.buf = []) :
    ∃ err evs, (finalPhase env st).1 = Outcome.ret err ∧
      (finalPhase env st).2.trace = st.2.trace ++ evs ∧
      accepted evs ++ (finalPhase env st).2.failMetrics.buf =
        st.2.failMetrics.buf ++ st.2.metrics.buf.take st.2.MetricBatchSize ∧
      (finalPhase env st).2.metrics.buf = st.2.metrics.buf.drop st.2.MetricBatchSize ∧
      (err = none → (finalPhase env st).2.failMetrics.buf = []) ∧
      (finalPhase env st).2.failMetrics.limit = st.2.failMetrics.limit ∧
      (finalPhase env st).2.metrics.limit = st.2.metrics.limit ∧
      (finalPhase env st).2.MetricBatchSize = st.2.MetricBatchSize := by
  obtain ⟨hm, hbs, _, hc⟩ := finalPhase_spec env st
  have hmb : (finalPhase env st).2.metrics.buf = st.2.metrics.buf.drop st.2.MetricBatchSize := by
    rw [hm, Buffer.Batch_snd_buf]
  have hml : (finalPhase env st).2.metrics.limit = st.2.metrics.limit := by
    rw [hm, Buffer.Batch_limit]
  have hadd : (st.2.failMetrics.Add (st.2.metrics.Batch st.2.MetricBatchSize).1).buf =
      st.2.failMetrics.buf ++ st.2.metrics.buf.take st.2.MetricBatchSize := by
    rw [Buffer.Add_buf_of_le, Buffer.Batch_fst]
    rw [Buffer.Batch_fst]
    exact hcap
  rcases hc with ⟨h1, h2, h3, hc⟩ | ⟨e, h1, h2, _, h4, h5⟩ | ⟨e, h1, h2, h4, h5⟩
  · have hF := hR h1
    rcases hc with ⟨h6, h5⟩ | ⟨_, h5⟩
    · refine ⟨none, _, h2, h5, ?_, hmb, fun _ => by rw [h3, hF], by rw [h3], hml, hbs⟩
      rw [Buffer.Batch_fst] at h6
      simp [accepted, h3, hF, h6]
    · refine ⟨none, _, h2, h5, ?_, hmb, fun _ => by rw [h3, hF], by rw [h3], hml, hbs⟩
      simp [accepted, h3, hF, Buffer.Batch_fst]
  · refine ⟨some e, _, h2, h5, ?_, hmb, ?_, by rw [h4, Buffer.Add_limit], hml, hbs⟩
    · rw [h4, hadd]
      simp [accepted]
    · intro h; cases h
  · refine ⟨some e, _, h2, h5, ?_, hmb, ?_, by rw [h4, Buffer.Add_limit], hml, hbs⟩
    · rw [h4, hadd]
      simp [accepted]
    · intro h; cases h

theorem Write_conserve (env : Env μ ε) (ro : RunningOutput μ ε)
    (hb : ro.MetricBatchSize ≠ 0)
    (hcap : ro.failMetrics.buf.length + min ro.MetricBatchSize ro.metrics.buf.length ≤
      ro.failMetrics.limit) :
    ∃ err new, (ro.Write env).1 = Outcome.ret err ∧
      (ro.Write env).2.trace = ro.trace ++ new ∧
      accepted new ++ (ro.Write env).2.failMetrics.buf ++ (ro.Write env).2.metrics.buf =
        ro.failMetrics.buf ++ ro.metrics.buf ∧
      (ro.Write env).2.metrics.buf = ro.metrics.buf.drop ro.MetricBatchSize ∧
      (err = none → (ro.Write env).2.failMetrics.buf = []) ∧
      (ro.Write env).2.failMetrics.limit = ro.failMetrics.limit ∧
      (ro.Write env).2.metrics.limit = ro.metrics.limit ∧
      (ro.Write env).2.MetricBatchSize = ro.MetricBatchSize := by
  by_cases hF : ro.failMetrics.buf = []
  · rw [Write_empty env ro hF]
    obtain ⟨err, evs, h1, h2, h3, h4, h5, h6, h7, h8⟩ := finalPhase_conserve env
      (none, ro.setBufferSize ro.failMetrics.Len ro.metrics.Len)
      (by simpa [RunningOutput.setBufferSize, List.length_take] using hcap)
      (fun _ => hF)
    refine ⟨err, evs, h1, h2, ?_, h4, h5, h6, h7, h8⟩
    rw [List.append_assoc, h4, ← List.append_assoc, h3]
    simp [RunningOutput.setBufferSize]
  · rw [Write_loop env ro hF hb]
    obtain ⟨evs1, R1, ht1, hb1, hc1, hn1, hl1⟩ := foldl_conserve env
      (retrySizes ro.failMetrics.Len ro.MetricBatchSize)
      (none, ro.setBufferSize ro.failMetrics.Len ro.metrics.Len) ro.failMetrics.buf []
      (by simp [RunningOutput.setBufferSize])
      (by rw [retrySizes_sum]; exact Nat.le_refl _)
      (by simp only [RunningOutput.setBufferSize, List.append_nil]; omega)
      (fun _ => rfl)
    obtain ⟨g1, g2, _⟩ := foldl_frame env (retrySizes ro.failMetrics.Len ro.MetricBatchSize)
      (none, ro.setBufferSize ro.failMetrics.Len ro.metrics.Len)
    rw [retrySizes_sum] at hb1 hc1
    have hb1' : ((retrySizes ro.failMetrics.Len ro.MetricBatchSize).foldl
        (fun s bs => retryBody env bs s)
        (none, ro.setBufferSize ro.failMetrics.Len ro.metrics.Len)).2.failMetrics.buf = R1 := by
      rw [hb1]
      simp [Buffer.Len]
    have hc1' : ro.failMetrics.buf = accepted evs1 ++ R1 := by
      rw [← hc1]
      simp [Buffer.Len]
    have hR1 : R1.length ≤ ro.failMetrics.buf.length := by
      rw [hc1']
      simp
    obtain ⟨err, evs, h1, h2, h3, h4, h5, h6, h7, h8⟩ := finalPhase_conserve env
      ((retrySizes ro.failMetrics.Len ro.MetricBatchSize).foldl
        (fun s bs => retryBody env bs s)
        (none, ro.setBufferSize ro.failMetrics.Len ro.metrics.Len))
      (by
        rw [hb1', hl1, g1, g2]
        simp only [RunningOutput.setBufferSize, List.length_append, List.length_take]
        omega)
      (fun h => by rw [hb1', hn1 h])
    rw [hb1', g1, g2] at h3
    rw [g1, g2] at h4
    refine ⟨err, evs1 ++ evs, h1, by rw [h2, ht1, List.append_assoc]; rfl, ?_, h4, h5,
      by rw [h6, hl1]; rfl, by rw [h7, g1]; rfl, by rw [h8, g2]; rfl⟩
    rw [accepted_append, h4]
    simp only [RunningOutput.setBufferSize] at h3 ⊢
    rw [List.append_assoc, List.append_assoc, ← List.append_assoc (accepted evs), h3]
    conv_rhs => rw [hc1']
    simp


/-! ## Sink calls of one flush cycle -/

theorem ShortCircuit_none_iff (new : List (Event μ ε)) (err : Option ε)
    (h : ShortCircuit new err) : err = none ↔ ∀ ev ∈ new, ev.isRejected = false := by
  constructor
  · intro he
    subst he
    exact h
  · intro hall
    cases err with
    | none => rfl
    | some x =>
      obtain ⟨pre, src, fl, B, rest, hnew, _⟩ := h
      have hmem : Event.sink src fl B (some x) ∈ new := by
        rw [hnew]
        simp
      have := hall _ hmem
      simp [Event.isRejected] at this

theorem ShortCircuit_error (new : List (Event μ ε)) (err : Option ε)
    (h : ShortCircuit new err) (src : Src) (fl : Nat) (B : List (Metric μ)) (x : ε)
    (hmem : Event.sink src fl B (some x) ∈ new) : err = some x := by
  cases err with
  | none =>
    have := h _ hmem
    simp [Event.isRejected] at this
  | some y =>
    obtain ⟨pre, src', fl', B', rest, hnew, hpre⟩ := h
    rw [hnew] at hmem
    simp only [List.mem_append, List.mem_cons] at hmem
    rcases hmem with hm | hm | hm | hm
    · have := hpre _ hm
      simp [Event.isRejected] at this
    · injection hm with _ _ _ h4
      injection h4 with h5
      rw [h5]
    · cases hm
    · have := rotation_not_sink rest _ hm
      simp [Event.isSink] at this

theorem ShortCircuit_count (new : List (Event μ ε)) (err : Option ε)
    (h : ShortCircuit new err) : (new.filter Event.isRejected).length ≤ 1 := by
  have hnone : ∀ l : List (Event μ ε), (∀ ev ∈ l, ev.isRejected = false) →
      l.filter Event.isRejected = [] := by
    intro l hl
    rw [List.filter_eq_nil_iff]
    intro ev hev
    rw [hl ev hev]
    simp
  cases err with
  | none =>
    rw [hnone new h]
    simp
  | some x =>
    obtain ⟨pre, src, fl, B, rest, hnew, hpre⟩ := h
    have hrot : ∀ ev ∈ (rotation rest : List (Event μ ε)), ev.isRejected = false := by
      intro ev hev
      have := rotation_not_sink rest ev hev
      cases ev with
      | sink s f b e => simp [Event.isSink] at this
      | extract s n b => rfl
      | requeue b => rfl
    rw [hnew, List.filter_append, hnone pre hpre]
    simp [List.filter_cons, Event.isRejected, hnone _ hrot]

theorem accepted_eq_nil (new : List (Event μ ε)) (h : ∀ ev ∈ new, ev.isAccepted = false) :
    accepted new = [] := by
  induction new with
  | nil => rfl
  | cons ev new ih =>
    have hev := h ev (List.mem_cons_self _ _)
    have ih' := ih (fun e he => h e (List.mem_cons_of_mem _ he))
    cases ev with
    | extract s n batch => simpa [accepted] using ih'
    | requeue batch => simpa [accepted] using ih'
    | sink s fl batch err =>
      cases err with
      | none => simp [Event.isAccepted] at hev
      | some e => simpa [accepted] using ih'

theorem newEvents_eq (ro ro' : RunningOutput μ ε) (new : List (Event μ ε))
    (h : ro'.trace = ro.trace ++ new) : newEvents ro.trace.length ro' = new := by
  simp [newEvents, h]

theorem retryBody_trace_extends (env : Env μ ε) (bs : Nat) (st : Option ε × RunningOutput μ ε) :
    ∃ evs, (retryBody env bs st).2.trace = st.2.trace ++ evs := by
  obtain ⟨_, _, _, hc⟩ := retryBody_spec env bs st
  rcases hc with ⟨_, _, _, ⟨_, h5⟩ | ⟨_, h5⟩⟩ | ⟨e, _, _, _, _, h5⟩ | ⟨e, _, _, _, h5⟩ <;>
    exact ⟨_, h5⟩

theorem foldl_trace_extends (env : Env μ ε) (sizes : List Nat) :
    ∀ st : Option ε × RunningOutput μ ε,
      ∃ evs, (sizes.foldl (fun s bs => retryBody env bs s) st).2.trace = st.2.trace ++ evs := by
  induction sizes with
  | nil => intro st; exact ⟨[], by simp⟩
  | cons bs sizes ih =>
    intro st
    obtain ⟨e1, h1⟩ := retryBody_trace_extends env bs st
    obtain ⟨e2, h2⟩ := ih (retryBody env bs st)
    exact ⟨e1 ++ e2, by simp only [List.foldl_cons]; rw [h2, h1, List.append_assoc]⟩

theorem Write_trace_extends (env : Env μ ε) (ro : RunningOutput μ ε) :
    ∃ new, (ro.Write env).2.trace = ro.trace ++ new := by
  obtain ⟨new, h, _⟩ := Write_shortCircuit env ro
  exact ⟨new, h⟩

theorem WriteN_trace_extends (env : Env μ ε) :
    ∀ (N : Nat) (ro : RunningOutput μ ε), ∃ new, (WriteN env N ro).trace = ro.trace ++ new := by
  intro N
  induction N with
  | zero => intro ro; exact ⟨[], by simp [WriteN]⟩
  | succ N ih =>
    intro ro
    obtain ⟨e1, h1⟩ := Write_trace_extends env ro
    obtain ⟨e2, h2⟩ := ih (ro.Write env).2
    exact ⟨e1 ++ e2, by simp only [WriteN]; rw [h2, h1, List.append_assoc]⟩

/-- While the local `err` stays `nil` the retry loop only removes from
`failMetrics`. -/
theorem foldl_ok (env : Env μ ε) (sizes : List Nat) :
    ∀ st : Option ε × RunningOutput μ ε,
      (sizes.foldl (fun s bs => retryBody env bs s) st).1 = none →
      st.1 = none ∧
      (sizes.foldl (fun s bs => retryBody env bs s) st).2.failMetrics.buf =
        st.2.failMetrics.buf.drop sizes.sum := by
  induction sizes with
  | nil => intro st h; exact ⟨h, by simp⟩
  | cons bs sizes ih =>
    intro st h
    simp only [List.foldl_cons] at h ⊢
    obtain ⟨h1, h2⟩ := ih (retryBody env bs st) h
    obtain ⟨_, _, _, hc⟩ := retryBody_spec env bs st
    rcases hc with ⟨g1, _, g3, _⟩ | ⟨e, _, g2, _⟩ | ⟨e, _, g2, _⟩
    · refine ⟨g1, ?_⟩
      rw [h2, g3, Buffer.Batch_snd_buf, List.drop_drop, List.sum_cons, Nat.add_comm]
    · rw [g2] at h1; cases h1
    · rw [g2] at h1; cases h1


theorem retryBody_sinks (env : Env μ ε) (bs : Nat) (st : Option ε × RunningOutput μ ε)
    (base new : List (Event μ ε)) (ht : st.2.trace = base ++ new) (h : RetrySinks new) :
    ∃ new', (retryBody env bs st).2.trace = base ++ new' ∧ RetrySinks new' := by
  obtain ⟨_, _, _, hc⟩ := retryBody_spec env bs st
  rcases hc with ⟨_, _, _, ⟨_, h5⟩ | ⟨hne, h5⟩⟩ | ⟨e, _, _, hne, _, h5⟩ | ⟨e, _, _, _, h5⟩
  · refine ⟨new ++ [_], by rw [h5, ht, List.append_assoc], ?_⟩
    intro s fl B e hmem
    simp only [List.mem_append, List.mem_singleton] at hmem
    rcases hmem with hm | hm
    · exact h s fl B e hm
    · cases hm
  · refine ⟨new ++ [_, _], by rw [h5, ht, List.append_assoc], ?_⟩
    intro s fl B e hmem
    simp only [List.mem_append, List.mem_cons, List.mem_singleton, List.not_mem_nil,
      or_false] at hmem
    rcases hmem with hm | hm | hm
    · exact h s fl B e hm
    · cases hm
    · injection hm with h1 h2 h3 h4
      rw [h1, h3]
      exact ⟨hne, rfl⟩
  · refine ⟨new ++ [_, _, _], by rw [h5, ht, List.append_assoc], ?_⟩
    intro s fl B e' hmem
    simp only [List.mem_append, List.mem_cons, List.mem_singleton, List.not_mem_nil,
      or_false] at hmem
    rcases hmem with hm | hm | hm | hm
    · exact h s fl B e' hm
    · cases hm
    · injection hm with h1 h2 h3 h4
      rw [h1, h3]
      exact ⟨hne, rfl⟩
    · cases hm
  · refine ⟨new ++ [_, _], by rw [h5, ht, List.append_assoc], ?_⟩
    intro s fl B e' hmem
    simp only [List.mem_append, List.mem_cons, List.mem_singleton, List.not_mem_nil,
      or_false] at hmem
    rcases hmem with hm | hm | hm
    · exact h s fl B e' hm
    · cases hm
    · cases hm

theorem foldl_sinks (env : Env μ ε) (sizes : List Nat) :
    ∀ (st : Option ε × RunningOutput μ ε) (base new : List (Event μ ε)),
      st.2.trace = base ++ new → RetrySinks new →
      ∃ new', (sizes.foldl (fun s bs => retryBody env bs s) st).2.trace = base ++ new' ∧
        RetrySinks new' := by
  induction sizes with
  | nil => intro st base new ht h; exact ⟨new, ht, h⟩
  | cons bs sizes ih =>
    intro st base new ht h
    obtain ⟨new1, ht1, h1⟩ := retryBody_sinks env bs st base new ht h
    exact ih (retryBody env bs st) base new1 ht1 h1

theorem finalPhase_sinks (env : Env μ ε) (st : Option ε × RunningOutput μ ε)
    (base new : List (Event μ ε)) (ht : st.2.trace = base ++ new) (h : RetrySinks new)
    (hF : st.1 = none → st.2.failMetrics.buf = []) :
    ∃ new', (finalPhase env st).2.trace = base ++ new' ∧
      ∀ s fl B e, Event.sink s fl B e ∈ new' → B ≠ [] ∧ (s = Src.metricsQ → fl = 0) := by
  have hold : ∀ s fl B e, Event.sink s fl B e ∈ new → B ≠ [] ∧ (s = Src.metricsQ → fl = 0) := by
    intro s fl B e hm
    obtain ⟨h1, h2⟩ := h s fl B e hm
    refine ⟨h1, ?_⟩
    intro hs
    rw [h2] at hs
    cases hs
  obtain ⟨_, _, _, hc⟩ := finalPhase_spec env st
  rcases hc with ⟨g1, _, _, ⟨_, h5⟩ | ⟨hne, h5⟩⟩ | ⟨e, g1, _, hne, _, h5⟩ | ⟨e, _, _, _, h5⟩
  · refine ⟨new ++ [_], by rw [h5, ht, List.append_assoc], ?_⟩
    intro s fl B e hmem
    simp only [List.mem_append, List.mem_singleton] at hmem
    rcases hmem with hm | hm
    · exact hold s fl B e hm
    · cases hm
  · refine ⟨new ++ [_, _], by rw [h5, ht, List.append_assoc], ?_⟩
    intro s fl B e hmem
    simp only [List.mem_append, List.mem_cons, List.mem_singleton, List.not_mem_nil,
      or_false] at hmem
    rcases hmem with hm | hm | hm
    · exact hold s fl B e hm
    · cases hm
    · injection hm with h1 h2 h3 h4
      rw [h2, h3]
      exact ⟨hne, fun _ => by simp [Buffer.Len, hF g1]⟩
  · refine ⟨new ++ [_, _, _], by rw [h5, ht, List.append_assoc], ?_⟩
    intro s fl B e' hmem
    simp only [List.mem_append, List.mem_cons, List.mem_singleton, List.not_mem_nil,
      or_false] at hmem
    rcases hmem with hm | hm | hm | hm
    · exact hold s fl B e' hm
    · cases hm
    · injection hm with h1 h2 h3 h4
      rw [h2, h3]
      exact ⟨hne, fun _ => by simp [Buffer.Len, hF g1]⟩
    · cases hm
  · refine ⟨new ++ [_, _], by rw [h5, ht, List.append_assoc], ?_⟩
    intro s fl B e' hmem
    simp only [List.mem_append, List.mem_cons, List.mem_singleton, List.not_mem_nil,
      or_false] at hmem
    rcases hmem with hm | hm | hm
    · exact hold s fl B e' hm
    · cases hm
    · cases hm

theorem Write_sinks (env : Env μ ε) (ro : RunningOutput μ ε) :
    ∃ new, (ro.Write env).2.trace = ro.trace ++ new ∧
      ∀ s fl B e, Event.sink s fl B e ∈ new → B ≠ [] ∧ (s = Src.metricsQ → fl = 0) := by
  have h0 : RetrySinks ([] : List (Event μ ε)) := by
    intro s fl B e hm
    simp at hm
  by_cases hF : ro.failMetrics.buf = []
  · rw [Write_empty env ro hF]
    exact finalPhase_sinks env (none, ro.setBufferSize ro.failMetrics.Len ro.metrics.Len)
      ro.trace [] (by simp [RunningOutput.setBufferSize]) h0 (fun _ => hF)
  · by_cases hb : ro.MetricBatchSize = 0
    · rw [Write_panic env ro hF hb]
      refine ⟨[], by simp [RunningOutput.setBufferSize], ?_⟩
      intro s fl B e hm
      simp at hm
    · rw [Write_loop env ro hF hb]
      obtain ⟨new1, ht1, hs1⟩ := foldl_sinks env
        (retrySizes ro.failMetrics.Len ro.MetricBatchSize)
        (none, ro.setBufferSize ro.failMetrics.Len ro.metrics.Len)
        ro.trace [] (by simp [RunningOutput.setBufferSize]) h0
      refine finalPhase_sinks env _ ro.trace new1 ht1 hs1 ?_
      intro hn
      obtain ⟨_, hbuf⟩ := foldl_ok env _ _ hn
      rw [hbuf, retrySizes_sum]
      simp [RunningOutput.setBufferSize, Buffer.Len]



/-! ## Chunks and the sink calls under an accepting sink -/

theorem chunksAux_fuel2 {α : Type} (b : Nat) (hb : b ≠ 0) :
    ∀ (f1 f2 : Nat) (xs : List α), xs.length ≤ f1 → xs.length ≤ f2 →
      chunksAux b f1 xs = chunksAux b f2 xs := by
  intro f1
  induction f1 with
  | zero =>
    intro f2 xs h _
    have : xs = [] := List.length_eq_zero.mp (by omega)
    subst this
    cases f2 <;> rfl
  | succ f1 ih =>
    intro f2 xs h1 h2
    cases xs with
    | nil => cases f2 <;> rfl
    | cons x rest =>
      have hd : ((x :: rest).drop b).length ≤ rest.length := by
        simp only [List.length_drop, List.length_cons]
        omega
      simp only [List.length_cons] at h1 h2
      cases f2 with
      | zero => omega
      | succ f2 =>
        simp only [chunksAux]
        rw [ih f2 ((x :: rest).drop b) (by omega) (by omega)]

theorem chunksAux_fuel {α : Type} (b : Nat) (hb : b ≠ 0) (fuel : Nat) (xs : List α)
    (h : xs.length ≤ fuel) : chunksAux b fuel xs = chunksAux b xs.length xs :=
  chunksAux_fuel2 b hb fuel xs.length xs h (Nat.le_refl _)

theorem chunks_nil {α : Type} (b : Nat) : chunks b ([] : List α) = [] := rfl

theorem chunks_cons {α : Type} (b : Nat) (hb : b ≠ 0) (xs : List α) (hx : xs ≠ []) :
    chunks b xs = xs.take b :: chunks b (xs.drop b) := by
  cases xs with
  | nil => exact absurd rfl hx
  | cons x rest =>
    have hd : ((x :: rest).drop b).length ≤ rest.length := by
      simp only [List.length_drop, List.length_cons]
      omega
    simp only [chunks, chunksAux, List.length_cons]
    rw [chunksAux_fuel b hb rest.length _ hd]

theorem chunks_length {α : Type} (b : Nat) (hb : b ≠ 0) :
    ∀ (n : Nat) (xs : List α), xs.length = n → (chunks b xs).length = (n + b - 1) / b := by
  intro n
  induction n using Nat.strong_induction_on with
  | _ n ih =>
    intro xs hn
    by_cases hx : xs = []
    · subst hx
      simp only [List.length_nil] at hn
      subst hn
      rw [chunks_nil]
      simp only [List.length_nil, Nat.zero_add]
      exact (Nat.div_eq_of_lt (by omega)).symm
    · have hpos : 0 < xs.length := List.length_pos.mpr hx
      rw [chunks_cons b hb xs hx, List.length_cons,
        ih (n - b) (by omega) (xs.drop b) (by simp [hn])]
      by_cases hle : b ≤ n
      · have : n + b - 1 = (n - b + b - 1) + b := by omega
        rw [this, Nat.add_div_right _ (by omega)]
      · have h1 : n - b + b - 1 < b := by omega
        have h2 : (n + b - 1) / b = 1 := by
          apply Nat.div_eq_of_lt_le <;> omega
        rw [Nat.div_eq_of_lt h1, h2]

theorem sinkBatches_append (a b : List (Event μ ε)) :
    sinkBatches (a ++ b) = sinkBatches a ++ sinkBatches b := by
  induction a with
  | nil => rfl
  | cons ev a ih =>
    cases ev with
    | extract s n batch => simpa [sinkBatches] using ih
    | requeue batch => simpa [sinkBatches] using ih
    | sink s fl batch err => simp [sinkBatches, ih]

theorem foldl_accepting (env : Env μ ε) (b : Nat) (hb : b ≠ 0) (r : Nat) (hr : r < b) :
    ∀ (q : Nat) (st : Option ε × RunningOutput μ ε), st.1 = none →
      st.2.failMetrics.buf.length = q * b + r →
      ∀ evs, ((List.replicate q b ++ [r]).foldl (fun s bs => retryBody env bs s) st).2.trace =
          st.2.trace ++ evs →
        (∀ ev ∈ evs, ev.isRejected = false) →
        sinkBatches evs = chunks b st.2.failMetrics.buf := by
  intro q
  induction q with
  | zero =>
    intro st hst hlen evs ht hacc
    simp only [Nat.zero_mul, Nat.zero_add] at hlen
    simp only [List.replicate_zero, List.nil_append, List.foldl_cons, List.foldl_nil] at ht
    have hbatch : (st.2.failMetrics.Batch r).1 = st.2.failMetrics.buf := by
      rw [Buffer.Batch_fst, ← hlen, List.take_length]
    obtain ⟨_, _, _, hc⟩ := retryBody_spec env r st
    rcases hc with ⟨_, _, _, ⟨h6, h5⟩ | ⟨h6, h5⟩⟩ | ⟨e, _, _, _, _, h5⟩ | ⟨e, h1, _⟩
    · rw [h5] at ht
      have hevs := List.append_cancel_left ht
      rw [hbatch] at h6
      rw [← hevs, h6]
      rfl
    · rw [h5] at ht
      have hevs := List.append_cancel_left ht
      rw [hbatch] at h6
      rw [← hevs, hbatch, chunks_cons b hb _ h6]
      have h7 : st.2.failMetrics.buf.drop b = [] := by
        apply List.drop_eq_nil_of_le
        omega
      have h8 : st.2.failMetrics.buf.take b = st.2.failMetrics.buf := by
        apply List.take_of_length_le
        omega
      rw [h7, h8, chunks_nil]
      rfl
    · rw [h5] at ht
      have hevs := List.append_cancel_left ht
      have := hacc (Event.sink Src.failQ (st.2.failMetrics.Batch r).2.Len
        (st.2.failMetrics.Batch r).1 (some e)) (by rw [← hevs]; simp)
      simp [Event.isRejected] at this
    · rw [hst] at h1
      cases h1
  | succ q ih =>
    intro st hst hlen evs ht hacc
    rw [Nat.succ_mul] at hlen
    simp only [List.replicate_succ, List.cons_append, List.foldl_cons] at ht
    have hne : st.2.failMetrics.buf ≠ [] := by
      intro h0
      rw [h0] at hlen
      simp only [List.length_nil] at hlen
      omega
    have hbne : (st.2.failMetrics.Batch b).1 ≠ [] := by
      rw [Buffer.Batch_fst]
      intro h0
      have := congrArg List.length h0
      simp only [List.length_take, List.length_nil] at this
      omega
    obtain ⟨e2, h2⟩ := foldl_trace_extends env (List.replicate q b ++ [r]) (retryBody env b st)
    obtain ⟨_, _, _, hc⟩ := retryBody_spec env b st
    rcases hc with ⟨_, g2, g3, ⟨h6, _⟩ | ⟨_, h5⟩⟩ | ⟨e, _, _, _, _, h5⟩ | ⟨e, h1, _⟩
    · exact absurd h6 hbne
    · have hevs : evs = [Event.extract Src.failQ b (st.2.failMetrics.Batch b).1,
          Event.sink Src.failQ (st.2.failMetrics.Batch b).2.Len
            (st.2.failMetrics.Batch b).1 none] ++ e2 := by
        have hx : st.2.trace ++ evs = st.2.trace ++
            ([Event.extract Src.failQ b (st.2.failMetrics.Batch b).1,
              Event.sink Src.failQ (st.2.failMetrics.Batch b).2.Len
                (st.2.failMetrics.Batch b).1 none] ++ e2) := by
          rw [← ht, h2, h5, List.append_assoc]
        exact List.append_cancel_left hx
      have hacc2 : ∀ ev ∈ e2, ev.isRejected = false := by
        intro ev hev
        exact hacc ev (by rw [hevs]; simp [hev])
      have hlen2 : (retryBody env b st).2.failMetrics.buf.length = q * b + r := by
        rw [g3, Buffer.Batch_snd_buf, List.length_drop]
        omega
      have := ih (retryBody env b st) g2 hlen2 e2 h2 hacc2
      rw [hevs, sinkBatches_append, this, chunks_cons b hb _ hne, g3, Buffer.Batch_snd_buf,
        Buffer.Batch_fst]
      rfl
    · have hmem : Event.sink Src.failQ (st.2.failMetrics.Batch b).2.Len
          (st.2.failMetrics.Batch b).1 (some e) ∈ evs := by
        have : st.2.trace ++ evs = st.2.trace ++ ([Event.extract Src.failQ b
            (st.2.failMetrics.Batch b).1,
          Event.sink Src.failQ (st.2.failMetrics.Batch b).2.Len
            (st.2.failMetrics.Batch b).1 (some e),
          Event.requeue (st.2.failMetrics.Batch b).1] ++ e2) := by
          rw [← ht, h2, h5, List.append_assoc]
        rw [List.append_cancel_left this]
        simp
      have := hacc _ hmem
      simp [Event.isRejected] at this
    · rw [hst] at h1
      cases h1

theorem finalPhase_accepting (env : Env μ ε) (st : Option ε × RunningOutput μ ε)
    (hst : st.1 = none) (hb : st.2.MetricBatchSize ≠ 0) (evs : List (Event μ ε))
    (ht : (finalPhase env st).2.trace = st.2.trace ++ evs)
    (hacc : ∀ ev ∈ evs, ev.isRejected = false) :
    sinkBatches evs =
      if st.2.metrics.buf.isEmpty then [] else [st.2.metrics.buf.take st.2.MetricBatchSize] := by
  obtain ⟨_, _, _, hc⟩ := finalPhase_spec env st
  rcases hc with ⟨_, _, _, ⟨h6, h5⟩ | ⟨h6, h5⟩⟩ | ⟨e, _, _, _, _, h5⟩ | ⟨e, h1, _⟩
  · rw [h5] at ht
    rw [← List.append_cancel_left ht]
    rw [Buffer.Batch_fst] at h6
    have hM : st.2.metrics.buf = [] := by
      cases hm : st.2.metrics.buf with
      | nil => rfl
      | cons x rest =>
        rw [hm] at h6
        cases hbs : st.2.MetricBatchSize with
        | zero => exact absurd hbs hb
        | succ k => rw [hbs] at h6; simp at h6
    simp [hM, sinkBatches]
  · rw [h5] at ht
    rw [← List.append_cancel_left ht]
    rw [Buffer.Batch_fst] at h6
    have hM : st.2.metrics.buf.isEmpty = false := by
      cases hm : st.2.metrics.buf with
      | nil => rw [hm] at h6; simp at h6
      | cons x rest => rfl
    simp [hM, sinkBatches, Buffer.Batch_fst]
  · rw [h5] at ht
    have := hacc (Event.sink Src.metricsQ st.2.failMetrics.Len
      (st.2.metrics.Batch st.2.MetricBatchSize).1 (some e))
      (by rw [← List.append_cancel_left ht]; simp)
    simp [Event.isRejected] at this
  · rw [hst] at h1
    cases h1

theorem Write_accepting (env : Env μ ε) (ro : RunningOutput μ ε)
    (hb : ro.MetricBatchSize ≠ 0) (new : List (Event μ ε))
    (ht : (ro.Write env).2.trace = ro.trace ++ new)
    (hacc : ∀ ev ∈ new, ev.isRejected = false) :
    sinkBatches new = chunks ro.MetricBatchSize ro.failMetrics.buf ++
      (if ro.metrics.buf.isEmpty then [] else [ro.metrics.buf.take ro.MetricBatchSize]) := by
  by_cases hF : ro.failMetrics.buf = []
  · rw [Write_empty env ro hF] at ht
    rw [hF, chunks_nil, List.nil_append]
    exact finalPhase_accepting env (none, ro.setBufferSize ro.failMetrics.Len ro.metrics.Len)
      rfl hb new ht hacc
  · rw [Write_loop env ro hF hb] at ht
    obtain ⟨e1, h1, hs1⟩ := foldl_shortCircuit env
      (retrySizes ro.failMetrics.Len ro.MetricBatchSize)
      (none, ro.setBufferSize ro.failMetrics.Len ro.metrics.Len) ro.trace []
      (by simp [RunningOutput.setBufferSize]) (by intro ev hev; simp at hev)
    obtain ⟨g1, g2, _⟩ := foldl_frame env (retrySizes ro.failMetrics.Len ro.MetricBatchSize)
      (none, ro.setBufferSize ro.failMetrics.Len ro.metrics.Len)
    obtain ⟨e2, h2⟩ : ∃ e2, (finalPhase env ((retrySizes ro.failMetrics.Len
        ro.MetricBatchSize).foldl (fun s bs => retryBody env bs s)
        (none, ro.setBufferSize ro.failMetrics.Len ro.metrics.Len))).2.trace =
        ((retrySizes ro.failMetrics.Len ro.MetricBatchSize).foldl
          (fun s bs => retryBody env bs s)
          (none, ro.setBufferSize ro.failMetrics.Len ro.metrics.Len)).2.trace ++ e2 := by
      obtain ⟨_, _, _, hc⟩ := finalPhase_spec env ((retrySizes ro.failMetrics.Len
        ro.MetricBatchSize).foldl (fun s bs => retryBody env bs s)
        (none, ro.setBufferSize ro.failMetrics.Len ro.metrics.Len))
      rcases hc with ⟨_, _, _, ⟨_, h5⟩ | ⟨_, h5⟩⟩ | ⟨e, _, _, _, _, h5⟩ | ⟨e, _, _, _, h5⟩ <;>
        exact ⟨_, h5⟩
    have hnew : new = e1 ++ e2 := by
      have hx : ro.trace ++ new = ro.trace ++ (e1 ++ e2) := by
        rw [← ht, h2, h1, List.append_assoc]
      exact List.append_cancel_left hx
    have hacc1 : ∀ ev ∈ e1, ev.isRejected = false := by
      intro ev hev
      exact hacc ev (by rw [hnew]; simp [hev])
    have hacc2 : ∀ ev ∈ e2, ev.isRejected = false := by
      intro ev hev
      exact hacc ev (by rw [hnew]; simp [hev])
    have hst1 := (ShortCircuit_none_iff e1 _ hs1).mpr hacc1
    have hc1 := foldl_accepting env ro.MetricBatchSize hb
      (ro.failMetrics.Len % ro.MetricBatchSize) (Nat.mod_lt _ (Nat.pos_of_ne_zero hb))
      (ro.failMetrics.Len / ro.MetricBatchSize)
      (none, ro.setBufferSize ro.failMetrics.Len ro.metrics.Len) rfl
      (by
        simp only [RunningOutput.setBufferSize, Buffer.Len]
        exact (Nat.div_add_mod' _ _).symm)
      e1 h1 hacc1
    have hc2 := finalPhase_accepting env _ hst1 (by rw [g2]; exact hb) e2 h2 hacc2
    rw [hnew, sinkBatches_append, hc1, hc2, g1, g2]
    rfl



/-! ## Ingestion and accepting flushes -/

theorem AddMetric_nil (env : Env μ ε) (ro : RunningOutput μ ε) :
    ro.AddMetric env none = ro := rfl

theorem AddMetric_spec (env : Env μ ε) (ro : RunningOutput μ ε) (m : μ) :
    ((ro.metrics.Add [some m]).Len ≠ ro.MetricBatchSize ∧
      ro.AddMetric env (some m) = { ro with metrics := ro.metrics.Add [some m] }) ∨
    ((ro.metrics.Add [some m]).Len = ro.MetricBatchSize ∧
      ((((ro.metrics.Add [some m]).Batch ro.MetricBatchSize).1 = [] ∧
        ro.AddMetric env (some m) =
          { ro with metrics := ((ro.metrics.Add [some m]).Batch ro.MetricBatchSize).2,
                    trace := ro.trace ++ [Event.extract Src.metricsQ ro.MetricBatchSize
                      ((ro.metrics.Add [some m]).Batch ro.MetricBatchSize).1] }) ∨
      (((ro.metrics.Add [some m]).Batch ro.MetricBatchSize).1 ≠ [] ∧
        env.sinkWrite (ro.trace ++ [Event.extract Src.metricsQ ro.MetricBatchSize
            ((ro.metrics.Add [some m]).Batch ro.MetricBatchSize).1])
          ((ro.metrics.Add [some m]).Batch ro.MetricBatchSize).1 = none ∧
        ro.AddMetric env (some m) =
          { ro with metrics := ((ro.metrics.Add [some m]).Batch ro.MetricBatchSize).2,
                    trace := ro.trace ++ [Event.extract Src.metricsQ ro.MetricBatchSize
                        ((ro.metrics.Add [some m]).Batch ro.MetricBatchSize).1,
                      Event.sink Src.metricsQ ro.failMetrics.Len
                        ((ro.metrics.Add [some m]).Batch ro.MetricBatchSize).1 none],
                    MetricsWritten := ro.MetricsWritten +
                      ((((ro.metrics.Add [some m]).Batch ro.MetricBatchSize).1.length : Nat) : Int),
                    WriteTime := ro.WriteTime + env.elapsed
                      (ro.trace ++ [Event.extract Src.metricsQ ro.MetricBatchSize
                        ((ro.metrics.Add [some m]).Batch ro.MetricBatchSize).1])
                      ((ro.metrics.Add [some m]).Batch ro.MetricBatchSize).1 }) ∨
      (((ro.metrics.Add [some m]).Batch ro.MetricBatchSize).1 ≠ [] ∧
        ∃ e, env.sinkWrite (ro.trace ++ [Event.extract Src.metricsQ ro.MetricBatchSize
            ((ro.metrics.Add [some m]).Batch ro.MetricBatchSize).1])
          ((ro.metrics.Add [some m]).Batch ro.MetricBatchSize).1 = some e ∧
        ro.AddMetric env (some m) =
          { ro with metrics := ((ro.metrics.Add [some m]).Batch ro.MetricBatchSize).2,
                    failMetrics := ro.failMetrics.Add
                      ((ro.metrics.Add [some m]).Batch ro.MetricBatchSize).1,
                    trace := ro.trace ++ [Event.extract Src.metricsQ ro.MetricBatchSize
                        ((ro.metrics.Add [some m]).Batch ro.MetricBatchSize).1,
                      Event.sink Src.metricsQ ro.failMetrics.Len
                        ((ro.metrics.Add [some m]).Batch ro.MetricBatchSize).1 (some e),
                      Event.requeue
                        ((ro.metrics.Add [some m]).Batch ro.MetricBatchSize).1] }))) := by
  by_cases hlen : (ro.metrics.Add [some m]).Len = ro.MetricBatchSize
  · right
    refine ⟨hlen, ?_⟩
    rcases write_spec env
      { ro with metrics := ((ro.metrics.Add [some m]).Batch ro.MetricBatchSize).2,
                trace := ro.trace ++ [Event.extract Src.metricsQ ro.MetricBatchSize
                  ((ro.metrics.Add [some m]).Batch ro.MetricBatchSize).1] }
      Src.metricsQ ((ro.metrics.Add [some m]).Batch ro.MetricBatchSize).1 with
      ⟨h1, h2⟩ | ⟨h1, hs, h2⟩ | ⟨h1, e, hs, h2⟩
    · left
      refine ⟨h1, ?_⟩
      simp only [RunningOutput.AddMetric, hlen, if_true, h2]
    · right; left
      refine ⟨h1, hs, ?_⟩
      simp only [RunningOutput.AddMetric, hlen, if_true, h2]
      simp
    · right; right
      refine ⟨h1, e, hs, ?_⟩
      simp only [RunningOutput.AddMetric, hlen, if_true, h2]
      simp
  · left
    refine ⟨hlen, ?_⟩
    simp only [RunningOutput.AddMetric, hlen, if_false]

theorem Buffer.Batch_full (q : Buffer μ) (n : Nat) (h : q.Len = n) :
    (q.Batch n).1 = q.buf ∧ (q.Batch n).2.buf = [] := by
  unfold Buffer.Len at h
  subst h
  simp [Buffer.Batch]
theorem chunks_flatten {α : Type} (b : Nat) (hb : b ≠ 0) :
    ∀ (n : Nat) (xs : List α), xs.length = n → (chunks b xs).flatten = xs := by
  intro n
  induction n using Nat.strong_induction_on with
  | _ n ih =>
    intro xs hn
    by_cases hx : xs = []
    · subst hx
      rfl
    · have hpos : 0 < xs.length := List.length_pos.mpr hx
      rw [chunks_cons b hb xs hx, List.flatten_cons,
        ih (n - b) (by omega) (xs.drop b) (by simp [hn]), List.take_append_drop]

theorem accepted_eq_flatten (new : List (Event μ ε))
    (h : ∀ ev ∈ new, ev.isRejected = false) : accepted new = (sinkBatches new).flatten := by
  induction new with
  | nil => rfl
  | cons ev new ih =>
    have hev := h ev (List.mem_cons_self _ _)
    have ih' := ih (fun e he => h e (List.mem_cons_of_mem _ he))
    cases ev with
    | extract s n batch => simpa [accepted, sinkBatches] using ih'
    | requeue batch => simpa [accepted, sinkBatches] using ih'
    | sink s fl batch err =>
      cases err with
      | none => simp [accepted, sinkBatches, ih']
      | some e => simp [Event.isRejected] at hev

theorem finalPhase_trace_extends (env : Env μ ε) (st : Option ε × RunningOutput μ ε) :
    ∃ evs, (finalPhase env st).2.trace = st.2.trace ++ evs := by
  obtain ⟨_, _, _, hc⟩ := finalPhase_spec env st
  rcases hc with ⟨_, _, _, ⟨_, h5⟩ | ⟨_, h5⟩⟩ | ⟨e, _, _, _, _, h5⟩ | ⟨e, _, _, _, h5⟩ <;>
    exact ⟨_, h5⟩

theorem finalPhase_ok (env : Env μ ε) (st : Option ε × RunningOutput μ ε)
    (h : (finalPhase env st).1 = Outcome.ret none) :
    st.1 = none ∧ (finalPhase env st).2.failMetrics = st.2.failMetrics := by
  obtain ⟨_, _, _, hc⟩ := finalPhase_spec env st
  rcases hc with ⟨g1, _, g3, _⟩ | ⟨e, _, g2, _⟩ | ⟨e, _, g2, _⟩
  · exact ⟨g1, g3⟩
  · rw [g2] at h; cases h
  · rw [g2] at h; cases h

/-- A flush cycle that returns `nil` leaves `failMetrics` empty. -/
theorem Write_ok_fail (env : Env μ ε) (ro : RunningOutput μ ε)
    (h : (ro.Write env).1 = Outcome.ret none) : (ro.Write env).2.failMetrics.buf = [] := by
  by_cases hF : ro.failMetrics.buf = []
  · rw [Write_empty env ro hF] at h ⊢
    obtain ⟨_, g⟩ := finalPhase_ok env _ h
    rw [g]
    exact hF
  · by_cases hb : ro.MetricBatchSize = 0
    · rw [Write_panic env ro hF hb] at h
      cases h
    · rw [Write_loop env ro hF hb] at h ⊢
      obtain ⟨g1, g⟩ := finalPhase_ok env _ h
      obtain ⟨_, hbuf⟩ := foldl_ok env _ _ g1
      rw [g, hbuf, retrySizes_sum]
      simp [RunningOutput.setBufferSize, Buffer.Len]

/-- A flush cycle that does not panic takes one batch from `metrics` and keeps
the batch size. -/
theorem Write_frame (env : Env μ ε) (ro : RunningOutput μ ε)
    (h : ro.failMetrics.buf = [] ∨ ro.MetricBatchSize ≠ 0) :
    (ro.Write env).2.metrics = (ro.metrics.Batch ro.MetricBatchSize).2 ∧
    (ro.Write env).2.MetricBatchSize = ro.MetricBatchSize := by
  by_cases hF : ro.failMetrics.buf = []
  · rw [Write_empty env ro hF]
    obtain ⟨h1, h2, _⟩ := finalPhase_spec env
      (none, ro.setBufferSize ro.failMetrics.Len ro.metrics.Len)
    exact ⟨h1, h2⟩
  · have hb : ro.MetricBatchSize ≠ 0 := by
      rcases h with h | h
      · exact absurd h hF
      · exact h
    rw [Write_loop env ro hF hb]
    obtain ⟨g1, g2, _⟩ := foldl_frame env (retrySizes ro.failMetrics.Len ro.MetricBatchSize)
      (none, ro.setBufferSize ro.failMetrics.Len ro.metrics.Len)
    obtain ⟨h1, h2, _⟩ := finalPhase_spec env
      ((retrySizes ro.failMetrics.Len ro.MetricBatchSize).foldl
        (fun s bs => retryBody env bs s)
        (none, ro.setBufferSize ro.failMetrics.Len ro.metrics.Len))
    rw [h1, h2, g1, g2]
    exact ⟨rfl, rfl⟩

/-- The outcome and the events of a flush cycle with a positive batch size. -/
theorem Write_returns (env : Env μ ε) (ro : RunningOutput μ ε) (hb : ro.MetricBatchSize ≠ 0) :
    ∃ err new, (ro.Write env).1 = Outcome.ret err ∧
      (ro.Write env).2.trace = ro.trace ++ new ∧ ShortCircuit new err := by
  obtain ⟨new, ht, hc⟩ := Write_shortCircuit env ro
  rcases hc with ⟨_, _, h0, _⟩ | ⟨err, h1, h2, _⟩
  · exact absurd h0 hb
  · exact ⟨err, new, h1, ht, h2⟩

/-- A flush cycle in which no sink call is rejected returns `nil`, empties
`failMetrics` and passes `failMetrics` and one batch of `metrics` to the sink. -/
theorem Write_accepting_state (env : Env μ ε) (ro : RunningOutput μ ε)
    (hb : ro.MetricBatchSize ≠ 0) (new : List (Event μ ε))
    (ht : (ro.Write env).2.trace = ro.trace ++ new)
    (hacc : ∀ ev ∈ new, ev.isRejected = false) :
    (ro.Write env).1 = Outcome.ret none ∧ (ro.Write env).2.failMetrics.buf = [] ∧
    (ro.Write env).2.metrics.buf = ro.metrics.buf.drop ro.MetricBatchSize ∧
    (sinkBatches new).flatten = ro.failMetrics.buf ++ ro.metrics.buf.take ro.MetricBatchSize := by
  obtain ⟨err, new', h1, ht', hs⟩ := Write_returns env ro hb
  have hnew : new' = new := by
    have hx : ro.trace ++ new' = ro.trace ++ new := by rw [← ht', ht]
    exact List.append_cancel_left hx
  subst hnew
  have herr := (ShortCircuit_none_iff new' err hs).mpr hacc
  subst herr
  obtain ⟨hm, _⟩ := Write_frame env ro (Or.inr hb)
  refine ⟨h1, Write_ok_fail env ro h1, by rw [hm, Buffer.Batch_snd_buf], ?_⟩
  rw [Write_accepting env ro hb new' ht hacc, List.flatten_append,
    chunks_flatten ro.MetricBatchSize hb _ _ rfl]
  cases hM : ro.metrics.buf with
  | nil => simp
  | cons x rest => simp

theorem AddMetric_trace_extends (env : Env μ ε) (ro : RunningOutput μ ε) (m : Metric μ) :
    ∃ evs, (ro.AddMetric env m).trace = ro.trace ++ evs := by
  cases m with
  | none => exact ⟨[], by simp [AddMetric_nil]⟩
  | some m =>
    rcases AddMetric_spec env ro m with ⟨_, h⟩ | ⟨_, ⟨_, h⟩ | ⟨_, _, h⟩ | ⟨_, e, _, h⟩⟩
    · exact ⟨[], by rw [h]; simp⟩
    · exact ⟨_, by rw [h]⟩
    · exact ⟨_, by rw [h]⟩
    · exact ⟨_, by rw [h]⟩

theorem AddMetrics_trace_extends (env : Env μ ε) :
    ∀ (ms : List (Metric μ)) (ro : RunningOutput μ ε),
      ∃ evs, (AddMetrics env ms ro).trace = ro.trace ++ evs := by
  intro ms
  induction ms with
  | nil => intro ro; exact ⟨[], by simp [AddMetrics]⟩
  | cons m ms ih =>
    intro ro
    obtain ⟨e1, h1⟩ := AddMetric_trace_extends env ro m
    obtain ⟨e2, h2⟩ := ih (ro.AddMetric env m)
    exact ⟨e1 ++ e2, by simp only [AddMetrics]; rw [h2, h1, List.append_assoc]⟩

/-- Adding metrics to a pipeline whose sink accepts every call: nothing is
evicted, nothing fails, and what was passed to the sink followed by what is
queued is what was queued followed by what was added. -/
theorem AddMetrics_accepting (env : Env μ ε) :
    ∀ (ms : List μ) (ro : RunningOutput μ ε), ro.MetricBatchSize ≠ 0 →
      ro.failMetrics.buf = [] → ro.metrics.buf.length < ro.MetricBatchSize →
      (ro.metrics.buf.length + ms.length ≤ ro.metrics.limit ∨
        ro.MetricBatchSize ≤ ro.metrics.limit) →
      ∀ evs, (AddMetrics env (ms.map some) ro).trace = ro.trace ++ evs →
        (∀ ev ∈ evs, ev.isRejected = false) →
        (AddMetrics env (ms.map some) ro).failMetrics.buf = [] ∧
        (AddMetrics env (ms.map some) ro).metrics.buf.length < ro.MetricBatchSize ∧
        (AddMetrics env (ms.map some) ro).MetricBatchSize = ro.MetricBatchSize ∧
        (sinkBatches evs).flatten ++ (AddMetrics env (ms.map some) ro).metrics.buf =
          ro.metrics.buf ++ ms.map some := by
  intro ms
  induction ms with
  | nil =>
    intro ro _ hF hM _ evs ht _
    simp only [List.map_nil, AddMetrics] at ht ⊢
    have hevs : evs = [] := by
      have hx : ro.trace ++ evs = ro.trace ++ [] := by rw [← ht]; simp
      exact List.append_cancel_left hx
    subst hevs
    exact ⟨hF, hM, trivial, by simp [sinkBatches]⟩
  | cons m ms ih =>
    intro ro hb hF hM hcap evs ht hacc
    simp only [List.map_cons, AddMetrics, List.length_cons] at ht hcap ⊢
    have hq : (ro.metrics.Add [some m]).buf = ro.metrics.buf ++ [some m] := by
      apply Buffer.Add_buf_of_le
      simp only [List.length_append, List.length_singleton]
      rcases hcap with hc | hc <;> omega
    have hqlen : (ro.metrics.Add [some m]).Len = ro.metrics.buf.length + 1 := by
      simp [Buffer.Len, hq]
    obtain ⟨e2, h2⟩ := AddMetrics_trace_extends env (ms.map some) (ro.AddMetric env (some m))
    rcases AddMetric_spec env ro m with ⟨hne, h⟩ | ⟨heq, ⟨h1, _⟩ | ⟨_, _, h⟩ | ⟨_, e, _, h⟩⟩
    · rw [hqlen] at hne
      have p1 : (ro.AddMetric env (some m)).MetricBatchSize = ro.MetricBatchSize := by rw [h]
      have p2 : (ro.AddMetric env (some m)).failMetrics = ro.failMetrics := by rw [h]
      have p3 : (ro.AddMetric env (some m)).metrics = ro.metrics.Add [some m] := by rw [h]
      have p4 : (ro.AddMetric env (some m)).trace = ro.trace := by rw [h]
      obtain ⟨a1, a2, a3, a4⟩ := ih (ro.AddMetric env (some m))
        (by rw [p1]; exact hb) (by rw [p2]; exact hF)
        (by rw [p1, p3, hq]; simp only [List.length_append, List.length_singleton]; omega)
        (by
          rw [p1, p3, hq, Buffer.Add_limit]
          simp only [List.length_append, List.length_singleton]
          rcases hcap with hc | hc
          · left; omega
          · right; exact hc)
        evs (by rw [ht, p4]) hacc
      rw [p1] at a2 a3
      rw [p3, hq] at a4
      refine ⟨a1, a2, a3, ?_⟩
      rw [a4]
      simp
    · rw [(Buffer.Batch_full _ _ heq).1, hq] at h1
      simp at h1
    · have p1 : (ro.AddMetric env (some m)).MetricBatchSize = ro.MetricBatchSize := by rw [h]
      have p2 : (ro.AddMetric env (some m)).failMetrics = ro.failMetrics := by rw [h]
      have p3 : (ro.AddMetric env (some m)).metrics =
          ((ro.metrics.Add [some m]).Batch ro.MetricBatchSize).2 := by rw [h]
      have p4 : (ro.AddMetric env (some m)).trace =
          ro.trace ++ [Event.extract Src.metricsQ ro.MetricBatchSize
            ((ro.metrics.Add [some m]).Batch ro.MetricBatchSize).1,
          Event.sink Src.metricsQ ro.failMetrics.Len
            ((ro.metrics.Add [some m]).Batch ro.MetricBatchSize).1 none] := by rw [h]
      have hevs : evs = [Event.extract Src.metricsQ ro.MetricBatchSize
            ((ro.metrics.Add [some m]).Batch ro.MetricBatchSize).1,
          Event.sink Src.metricsQ ro.failMetrics.Len
            ((ro.metrics.Add [some m]).Batch ro.MetricBatchSize).1 none] ++ e2 := by
        have hx : ro.trace ++ evs = ro.trace ++
            ([Event.extract Src.metricsQ ro.MetricBatchSize
              ((ro.metrics.Add [some m]).Batch ro.MetricBatchSize).1,
            Event.sink Src.metricsQ ro.failMetrics.Len
              ((ro.metrics.Add [some m]).Batch ro.MetricBatchSize).1 none] ++ e2) := by
          rw [← ht, h2, p4, List.append_assoc]
        exact List.append_cancel_left hx
      have hacc2 : ∀ ev ∈ e2, ev.isRejected = false := by
        intro ev hev
        exact hacc ev (by rw [hevs]; simp [hev])
      obtain ⟨a1, a2, a3, a4⟩ := ih (ro.AddMetric env (some m))
        (by rw [p1]; exact hb) (by rw [p2]; exact hF)
        (by
          rw [p1, p3, (Buffer.Batch_full _ _ heq).2]
          simp only [List.length_nil]
          omega)
        (by
          rw [p1, p3, (Buffer.Batch_full _ _ heq).2, Buffer.Batch_limit, Buffer.Add_limit]
          simp only [List.length_nil]
          rcases hcap with hc | hc
          · left; omega
          · right; exact hc)
        e2 h2 hacc2
      rw [p1] at a2 a3
      rw [p3, (Buffer.Batch_full _ _ heq).2, List.nil_append] at a4
      refine ⟨a1, a2, a3, ?_⟩
      rw [hevs, sinkBatches_append, List.flatten_append, List.append_assoc, a4,
        (Buffer.Batch_full _ _ heq).1, hq]
      simp [sinkBatches]
    · have p4 : (ro.AddMetric env (some m)).trace =
          ro.trace ++ [Event.extract Src.metricsQ ro.MetricBatchSize
              ((ro.metrics.Add [some m]).Batch ro.MetricBatchSize).1,
            Event.sink Src.metricsQ ro.failMetrics.Len
              ((ro.metrics.Add [some m]).Batch ro.MetricBatchSize).1 (some e),
            Event.requeue ((ro.metrics.Add [some m]).Batch ro.MetricBatchSize).1] := by rw [h]
      have hmem : Event.sink Src.metricsQ ro.failMetrics.Len
          ((ro.metrics.Add [some m]).Batch ro.MetricBatchSize).1 (some e) ∈ evs := by
        have hx : ro.trace ++ evs = ro.trace ++
            ([Event.extract Src.metricsQ ro.MetricBatchSize
              ((ro.metrics.Add [some m]).Batch ro.MetricBatchSize).1,
            Event.sink Src.metricsQ ro.failMetrics.Len
              ((ro.metrics.Add [some m]).Batch ro.MetricBatchSize).1 (some e),
            Event.requeue ((ro.metrics.Add [some m]).Batch ro.MetricBatchSize).1] ++ e2) := by
          rw [← ht, h2, p4, List.append_assoc]
        rw [List.append_cancel_left hx]
        simp
      have := hacc _ hmem
      simp [Event.isRejected] at this



/-! ## Consecutive flush cycles -/

/-- Flush cycles in which the sink accepts nothing keep every queued metric, in
order, as long as `failMetrics` has room for all of them. -/
theorem WriteN_rejecting (env : Env μ ε) :
    ∀ (N : Nat) (ro : RunningOutput μ ε), ro.MetricBatchSize ≠ 0 →
      ro.failMetrics.buf.length + ro.metrics.buf.length ≤ ro.failMetrics.limit →
      ∀ new, (WriteN env N ro).trace = ro.trace ++ new →
        (∀ ev ∈ new, ev.isAccepted = false) →
        (WriteN env N ro).failMetrics.buf ++ (WriteN env N ro).metrics.buf =
          ro.failMetrics.buf ++ ro.metrics.buf ∧
        (WriteN env N ro).failMetrics.limit = ro.failMetrics.limit ∧
        (WriteN env N ro).MetricBatchSize = ro.MetricBatchSize := by
  intro N
  induction N with
  | zero =>
    intro ro _ _ new _ _
    exact ⟨rfl, rfl, rfl⟩
  | succ N ih =>
    intro ro hb hcap new ht hrej
    simp only [WriteN] at ht ⊢
    obtain ⟨err, new1, _, ht1, hc1, _, _, hl1, _, hb1⟩ := Write_conserve env ro hb
      (by have := Nat.min_le_right ro.MetricBatchSize ro.metrics.buf.length; omega)
    obtain ⟨e2, h2⟩ := WriteN_trace_extends env N (ro.Write env).2
    have hnew : new = new1 ++ e2 := by
      have hx : ro.trace ++ new = ro.trace ++ (new1 ++ e2) := by
        rw [← ht, h2, ht1, List.append_assoc]
      exact List.append_cancel_left hx
    have hrej1 : ∀ ev ∈ new1, ev.isAccepted = false := by
      intro ev hev
      exact hrej ev (by rw [hnew]; simp [hev])
    have hrej2 : ∀ ev ∈ e2, ev.isAccepted = false := by
      intro ev hev
      exact hrej ev (by rw [hnew]; simp [hev])
    rw [accepted_eq_nil new1 hrej1, List.nil_append] at hc1
    have hlen : (ro.Write env).2.failMetrics.buf.length + (ro.Write env).2.metrics.buf.length =
        ro.failMetrics.buf.length + ro.metrics.buf.length := by
      have := congrArg List.length hc1
      simpa only [List.length_append] using this
    obtain ⟨a1, a2, a3⟩ := ih (ro.Write env).2 (by rw [hb1]; exact hb)
      (by rw [hl1, hlen]; exact hcap) e2 h2 hrej2
    exact ⟨by rw [a1, hc1], by rw [a2, hl1], by rw [a3, hb1]⟩



/-! ## The scenario with batch size 2 -/

theorem scenario_adds (env : Env μ ε) (ro : RunningOutput μ ε) (A B C : μ)
    (hb : ro.MetricBatchSize = 2) (hml : ro.metrics.limit = 10) (hfl : ro.failMetrics.limit = 10)
    (hF : ro.failMetrics.buf = []) (hM : ro.metrics.buf = [])
    (hrej : ∀ tr, env.sinkWrite tr [some A, some B] ≠ none) :
    (AddMetrics env [some A, some B, some C] ro).failMetrics.buf = [some A, some B] ∧
    (AddMetrics env [some A, some B, some C] ro).metrics.buf = [some C] ∧
    (AddMetrics env [some A, some B, some C] ro).MetricBatchSize = 2 ∧
    (AddMetrics env [some A, some B, some C] ro).failMetrics.limit = 10 := by
  obtain ⟨lim, b, mw, bs, wt, ⟨ml, mb⟩, ⟨fl, fb⟩, tr⟩ := ro
  simp only at hb hml hfl hF hM
  subst hb hml hfl hF hM
  obtain ⟨e, he⟩ := Option.ne_none_iff_exists'.mp
    (hrej (tr ++ [Event.extract Src.metricsQ 2 [some A, some B]]))
  simp [AddMetrics, RunningOutput.AddMetric, Buffer.Add, Buffer.Len, Buffer.Batch,
    RunningOutput.write, he]

theorem scenario_write (env : Env μ ε) (ro : RunningOutput μ ε) (A B C : μ)
    (hb : ro.MetricBatchSize = 2) (hfl : ro.failMetrics.limit = 10)
    (hF : ro.failMetrics.buf = [some A, some B]) (hM : ro.metrics.buf = [some C])
    (hrej : ∀ tr, env.sinkWrite tr [some A, some B] ≠ none) :
    (∃ e, (ro.Write env).1 = Outcome.ret (some e)) ∧
    (ro.Write env).2.failMetrics.buf = [some A, some B, some C] ∧
    (ro.Write env).2.metrics.buf = [] := by
  obtain ⟨lim, b, mw, bs, wt, ⟨ml, mb⟩, ⟨fl, fb⟩, tr⟩ := ro
  simp only at hb hfl hF hM
  subst hb hfl hF hM
  obtain ⟨e, he⟩ := Option.ne_none_iff_exists'.mp
    (hrej (tr ++ [Event.extract Src.failQ 2 [some A, some B]]))
  simp [RunningOutput.Write, RunningOutput.setBufferSize, retryPhase, retryLoop, retryBody,
    finalPhase, Buffer.IsEmpty, Buffer.Add, Buffer.Len, Buffer.Batch, RunningOutput.write, he]


theorem mem_sinkBatches (new : List (Event μ ε)) (batch : List (Metric μ))
    (h : batch ∈ sinkBatches new) : ∃ s fl e, Event.sink s fl batch e ∈ new := by
  induction new with
  | nil => simp [sinkBatches] at h
  | cons ev new ih =>
    cases ev with
    | extract s n b =>
      obtain ⟨s', fl, e, hm⟩ := ih (by simpa [sinkBatches] using h)
      exact ⟨s', fl, e, List.mem_cons_of_mem _ hm⟩
    | requeue b =>
      obtain ⟨s', fl, e, hm⟩ := ih (by simpa [sinkBatches] using h)
      exact ⟨s', fl, e, List.mem_cons_of_mem _ hm⟩
    | sink s fl b e =>
      simp only [sinkBatches, List.mem_cons] at h
      rcases h with h | h
      · subst h
        exact ⟨s, fl, e, List.mem_cons_self _ _⟩
      · obtain ⟨s', fl', e', hm⟩ := ih h
        exact ⟨s', fl', e', List.mem_cons_of_mem _ hm⟩


/-! ## Extractions of the retry loop -/

theorem failRequests_append (a b : List (Event μ ε)) :
    failRequests (a ++ b) = failRequests a ++ failRequests b := by
  induction a with
  | nil => rfl
  | cons ev a ih =>
    cases ev with
    | extract s n batch => cases s <;> simp [failRequests, ih]
    | requeue batch => simpa [failRequests] using ih
    | sink s fl batch err => simpa [failRequests] using ih

theorem extractedFail_append (a b : List (Event μ ε)) :
    extractedFail (a ++ b) = extractedFail a ++ extractedFail b := by
  induction a with
  | nil => rfl
  | cons ev a ih =>
    cases ev with
    | extract s n batch => cases s <;> simp [extractedFail, ih]
    | requeue batch => simpa [extractedFail] using ih
    | sink s fl batch err => simpa [extractedFail] using ih

theorem retriedBatches_append (a b : List (Event μ ε)) :
    retriedBatches (a ++ b) = retriedBatches a ++ retriedBatches b := by
  induction a with
  | nil => rfl
  | cons ev a ih =>
    cases ev with
    | extract s n batch => simpa [retriedBatches] using ih
    | requeue batch => simpa [retriedBatches] using ih
    | sink s fl batch err => cases s <;> simp [retriedBatches, ih]

/-- The events of one iteration of the retry loop: one extraction of the
requested size, and a sink call with the extracted batch only while the local
`err` is `nil`. -/
theorem retryBody_events (env : Env μ ε) (bs : Nat) (st : Option ε × RunningOutput μ ε) :
    ∃ evs, (retryBody env bs st).2.trace = st.2.trace ++ evs ∧
      failRequests evs = [bs] ∧
      (extractedFail evs).flatten = (st.2.failMetrics.Batch bs).1 ∧
      ((st.1 = none ∧ (retriedBatches evs).flatten = (st.2.failMetrics.Batch bs).1) ∨
       (st.1 ≠ none ∧ (retryBody env bs st).1 ≠ none ∧ (retriedBatches evs).flatten = [])) := by
  obtain ⟨_, _, _, hc⟩ := retryBody_spec env bs st
  rcases hc with ⟨h1, _, _, ⟨h6, h5⟩ | ⟨_, h5⟩⟩ | ⟨e, h1, _, _, _, h5⟩ | ⟨e, h1, h2, _, h5⟩
  · refine ⟨_, h5, ?_, ?_, Or.inl ⟨h1, ?_⟩⟩
    · simp [failRequests]
    · simp [extractedFail]
    · simp [retriedBatches, h6]
  · refine ⟨_, h5, ?_, ?_, Or.inl ⟨h1, ?_⟩⟩
    · simp [failRequests]
    · simp [extractedFail]
    · simp [retriedBatches]
  · refine ⟨_, h5, ?_, ?_, Or.inl ⟨h1, ?_⟩⟩
    · simp [failRequests]
    · simp [extractedFail]
    · simp [retriedBatches]
  · refine ⟨_, h5, ?_, ?_, Or.inr ⟨?_, ?_, ?_⟩⟩
    · simp [failRequests]
    · simp [extractedFail]
    · rw [h1]; simp
    · rw [h2]; simp
    · simp [retriedBatches]

/-- The retry loop asks for exactly the given sizes; what it passes to the sink
is a leading part of what it extracts, and all of it while `err` stays `nil`. -/
theorem foldl_events (env : Env μ ε) (sizes : List Nat) :
    ∀ st : Option ε × RunningOutput μ ε,
      ∃ evs, (sizes.foldl (fun s bs => retryBody env bs s) st).2.trace = st.2.trace ++ evs ∧
        failRequests evs = sizes ∧
        (st.1 = none →
          ((sizes.foldl (fun s bs => retryBody env bs s) st).1 = none →
            (retriedBatches evs).flatten = (extractedFail evs).flatten) ∧
          ∃ rest, (retriedBatches evs).flatten ++ rest = (extractedFail evs).flatten) ∧
        (st.1 ≠ none →
          (sizes.foldl (fun s bs => retryBody env bs s) st).1 ≠ none ∧
          (retriedBatches evs).flatten = []) := by
  induction sizes with
  | nil =>
    intro st
    refine ⟨[], by simp, rfl, ?_, ?_⟩
    · intro _
      exact ⟨fun _ => rfl, [], rfl⟩
    · intro h
      exact ⟨h, rfl⟩
  | cons bs sizes ih =>
    intro st
    obtain ⟨e1, t1, r1, x1, o1⟩ := retryBody_events env bs st
    obtain ⟨e2, t2, r2, a2, b2⟩ := ih (retryBody env bs st)
    refine ⟨e1 ++ e2, ?_, ?_, ?_, ?_⟩
    · simp only [List.foldl_cons]
      rw [t2, t1, List.append_assoc]
    · rw [failRequests_append, r1, r2]
      rfl
    · intro hst
      simp only [List.foldl_cons]
      rcases o1 with ⟨_, o1⟩ | ⟨hne, _⟩
      · rw [retriedBatches_append, extractedFail_append, List.flatten_append,
          List.flatten_append, o1, x1]
        by_cases h1 : (retryBody env bs st).1 = none
        · obtain ⟨c1, rest, c2⟩ := a2 h1
          refine ⟨fun h => by rw [c1 h], rest, ?_⟩
          rw [List.append_assoc, c2]
        · obtain ⟨c1, c2⟩ := b2 h1
          refine ⟨fun h => absurd h c1, (extractedFail e2).flatten, ?_⟩
          rw [c2, List.append_nil]
      · exact absurd hst hne
    · intro hst
      simp only [List.foldl_cons]
      rcases o1 with ⟨h0, _⟩ | ⟨_, h1, o1⟩
      · exact absurd h0 hst
      · obtain ⟨c1, c2⟩ := b2 h1
        refine ⟨c1, ?_⟩
        rw [retriedBatches_append, List.flatten_append, o1, c2]
        rfl

/-- With room for its content, `failMetrics` gives the retry loop its original
content, in order. -/
theorem foldl_extracted (env : Env μ ε) (sizes : List Nat) :
    ∀ (st : Option ε × RunningOutput μ ε) (U R : List (Metric μ)),
      st.2.failMetrics.buf = U ++ R → sizes.sum ≤ U.length →
      (U ++ R).length ≤ st.2.failMetrics.limit → (st.1 = none → R = []) →
      ∀ evs, (sizes.foldl (fun s bs => retryBody env bs s) st).2.trace = st.2.trace ++ evs →
        (extractedFail evs).flatten = U.take sizes.sum := by
  induction sizes with
  | nil =>
    intro st U R _ _ _ _ evs ht
    have hevs : evs = [] := by
      have hx : st.2.trace ++ evs = st.2.trace ++ [] := by rw [← ht]; simp
      exact List.append_cancel_left hx
    subst hevs
    simp [extractedFail]
  | cons bs sizes ih =>
    intro st U R hbuf hsum hcap hR evs ht
    simp only [List.sum_cons] at hsum
    simp only [List.foldl_cons] at ht
    obtain ⟨_, R1, _, hb1, _, hn1, hcap1, _⟩ :=
      retryBody_conserve env bs st U R hbuf (by omega) hcap hR
    obtain ⟨e1, t1, _, x1, _⟩ := retryBody_events env bs st
    obtain ⟨e2, t2⟩ := foldl_trace_extends env sizes (retryBody env bs st)
    have hevs : evs = e1 ++ e2 := by
      have hx : st.2.trace ++ evs = st.2.trace ++ (e1 ++ e2) := by
        rw [← ht, t2, t1, List.append_assoc]
      exact List.append_cancel_left hx
    have h2 := ih (retryBody env bs st) (U.drop bs) R1 hb1
      (by simp only [List.length_drop]; omega) hcap1 hn1 e2 t2
    rw [hevs, extractedFail_append, List.flatten_append, x1, h2, Buffer.Batch_fst, hbuf,
      List.take_append_of_le_length (by omega), List.sum_cons, List.take_add]

/-- The last phase of `Write` extracts nothing from `failMetrics`. -/
theorem finalPhase_events (env : Env μ ε) (st : Option ε × RunningOutput μ ε) :
    ∃ evs, (finalPhase env st).2.trace = st.2.trace ++ evs ∧
      failRequests evs = [] ∧ extractedFail evs = [] ∧ retriedBatches evs = [] ∧
      ∃ err, (finalPhase env st).1 = Outcome.ret err := by
  obtain ⟨_, _, _, hc⟩ := finalPhase_spec env st
  rcases hc with ⟨_, h2, _, ⟨_, h5⟩ | ⟨_, h5⟩⟩ | ⟨e, _, h2, _, _, h5⟩ | ⟨e, _, h2, _, h5⟩
  · exact ⟨_, h5, by simp [failRequests], by simp [extractedFail], by simp [retriedBatches],
      _, h2⟩
  · exact ⟨_, h5, by simp [failRequests], by simp [extractedFail], by simp [retriedBatches],
      _, h2⟩
  · exact ⟨_, h5, by simp [failRequests], by simp [extractedFail], by simp [retriedBatches],
      _, h2⟩
  · exact ⟨_, h5, by simp [failRequests], by simp [extractedFail], by simp [retriedBatches],
      _, h2⟩

/-- The retry loop of `Write`, for a positive batch size and a non-empty
`failMetrics`. -/
theorem Write_retry_events (env : Env μ ε) (ro : RunningOutput μ ε)
    (hb : ro.MetricBatchSize ≠ 0) (hF : ro.failMetrics.buf ≠ []) :
    ∃ new, (ro.Write env).2.trace = ro.trace ++ new ∧
      failRequests new = retrySizes ro.failMetrics.buf.length ro.MetricBatchSize ∧
      (∃ rest, (retriedBatches new).flatten ++ rest = (extractedFail new).flatten) ∧
      (ro.failMetrics.buf.length ≤ ro.failMetrics.limit →
        (extractedFail new).flatten = ro.failMetrics.buf) := by
  rw [Write_loop env ro hF hb]
  obtain ⟨e1, t1, r1, a1, _⟩ := foldl_events env
    (retrySizes ro.failMetrics.Len ro.MetricBatchSize)
    (none, ro.setBufferSize ro.failMetrics.Len ro.metrics.Len)
  obtain ⟨e2, t2, r2, x2, o2, _⟩ := finalPhase_events env
    ((retrySizes ro.failMetrics.Len ro.MetricBatchSize).foldl
      (fun s bs => retryBody env bs s)
      (none, ro.setBufferSize ro.failMetrics.Len ro.metrics.Len))
  obtain ⟨_, rest, hrest⟩ := a1 rfl
  refine ⟨e1 ++ e2, ?_, ?_, ⟨rest, ?_⟩, ?_⟩
  · rw [t2, t1, List.append_assoc]
    rfl
  · rw [failRequests_append, r1, r2, List.append_nil]
    rfl
  · rw [retriedBatches_append, extractedFail_append, o2, x2, List.append_nil, List.append_nil]
    exact hrest
  · intro hwf
    have hx := foldl_extracted env (retrySizes ro.failMetrics.Len ro.MetricBatchSize)
      (none, ro.setBufferSize ro.failMetrics.Len ro.metrics.Len) ro.failMetrics.buf []
      (by simp [RunningOutput.setBufferSize])
      (by rw [retrySizes_sum]; exact Nat.le_refl _)
      (by simpa [RunningOutput.setBufferSize] using hwf)
      (fun _ => rfl) e1 t1
    rw [extractedFail_append, x2, List.append_nil, hx, retrySizes_sum]
    simp [Buffer.Len]

/-- With an empty `failMetrics` the retry loop of `Write` is skipped. -/
theorem Write_skip_events (env : Env μ ε) (ro : RunningOutput μ ε)
    (hF : ro.failMetrics.buf = []) :
    ∃ new err, (ro.Write env).2.trace = ro.trace ++ new ∧ failRequests new = [] ∧
      (ro.Write env).1 = Outcome.ret err := by
  rw [Write_empty env ro hF]
  obtain ⟨e2, t2, r2, _, _, err, herr⟩ := finalPhase_events env
    (none, ro.setBufferSize ro.failMetrics.Len ro.metrics.Len)
  exact ⟨e2, err, t2, r2, herr⟩

theorem retrySizes_length (n b : Nat) : (retrySizes n b).length = n / b + 1 := by
  simp [retrySizes]



/-! ## Sequences of calls, and arithmetic of the retry count -/

theorem Buffer.Add_length_le (q : Buffer μ) (ms : List (Metric μ)) :
    (q.Add ms).buf.length ≤ q.buf.length + ms.length := by
  simp only [Buffer.Add, List.length_drop, List.length_append]
  omega

/-- `AddMetric` keeps the `metrics` queue shorter than a batch. -/
theorem AddMetric_metrics_lt (env : Env μ ε) (ro : RunningOutput μ ε) (m : Metric μ)
    (hM : ro.metrics.buf.length < ro.MetricBatchSize) :
    (ro.AddMetric env m).metrics.buf.length < ro.MetricBatchSize ∧
    (ro.AddMetric env m).MetricBatchSize = ro.MetricBatchSize := by
  cases m with
  | none => exact ⟨hM, rfl⟩
  | some m =>
    have hle := Buffer.Add_length_le ro.metrics [some m]
    simp only [List.length_singleton] at hle
    rcases AddMetric_spec env ro m with ⟨hne, h⟩ | ⟨heq, ⟨_, h⟩ | ⟨_, _, h⟩ | ⟨_, e, _, h⟩⟩
    · rw [h]
      refine ⟨?_, rfl⟩
      simp only [Buffer.Len] at hne
      show (ro.metrics.Add [some m]).buf.length < ro.MetricBatchSize
      omega
    · rw [h]
      refine ⟨?_, rfl⟩
      show ((ro.metrics.Add [some m]).Batch ro.MetricBatchSize).2.buf.length < ro.MetricBatchSize
      rw [(Buffer.Batch_full _ _ heq).2]
      simp only [List.length_nil]
      omega
    · rw [h]
      refine ⟨?_, rfl⟩
      show ((ro.metrics.Add [some m]).Batch ro.MetricBatchSize).2.buf.length < ro.MetricBatchSize
      rw [(Buffer.Batch_full _ _ heq).2]
      simp only [List.length_nil]
      omega
    · rw [h]
      refine ⟨?_, rfl⟩
      show ((ro.metrics.Add [some m]).Batch ro.MetricBatchSize).2.buf.length < ro.MetricBatchSize
      rw [(Buffer.Batch_full _ _ heq).2]
      simp only [List.length_nil]
      omega

/-- `Write` drains a `metrics` queue that is shorter than a batch. -/
theorem Write_metrics_drained (env : Env μ ε) (ro : RunningOutput μ ε)
    (hb : ro.MetricBatchSize ≠ 0) (hM : ro.metrics.buf.length < ro.MetricBatchSize) :
    (ro.Write env).2.metrics.buf = [] ∧
    (ro.Write env).2.MetricBatchSize = ro.MetricBatchSize := by
  obtain ⟨h1, h2⟩ := Write_frame env ro (Or.inr hb)
  refine ⟨?_, h2⟩
  rw [h1, Buffer.Batch_snd_buf]
  exact List.drop_eq_nil_of_le (by omega)

theorem runOps_metrics_lt (env : Env μ ε) :
    ∀ (ops : List (Op μ)) (ro : RunningOutput μ ε), ro.MetricBatchSize ≠ 0 →
      ro.metrics.buf.length < ro.MetricBatchSize →
      (runOps env ops ro).metrics.buf.length < ro.MetricBatchSize ∧
      (runOps env ops ro).MetricBatchSize = ro.MetricBatchSize := by
  intro ops
  induction ops with
  | nil => intro ro _ hM; exact ⟨hM, rfl⟩
  | cons op ops ih =>
    intro ro hb hM
    cases op with
    | add m =>
      obtain ⟨h1, h2⟩ := AddMetric_metrics_lt env ro m hM
      obtain ⟨a1, a2⟩ := ih (ro.AddMetric env m) (by rw [h2]; exact hb) (by rw [h2]; exact h1)
      simp only [runOps]
      rw [h2] at a1 a2
      exact ⟨a1, a2⟩
    | flush =>
      obtain ⟨h1, h2⟩ := Write_metrics_drained env ro hb hM
      obtain ⟨a1, a2⟩ := ih (ro.Write env).2 (by rw [h2]; exact hb)
        (by rw [h2, h1]; simp only [List.length_nil]; omega)
      simp only [runOps]
      rw [h2] at a1 a2
      exact ⟨a1, a2⟩

theorem ceil_div_of_mod_ne (n b : Nat) (hb : 0 < b) (h : n % b ≠ 0) :
    (n + b - 1) / b = n / b + 1 := by
  have h1 := Nat.div_add_mod n b
  have h2 := Nat.mod_lt n hb
  apply Nat.div_eq_of_lt_le
  · rw [Nat.add_mul, Nat.one_mul, Nat.mul_comm]
    omega
  · rw [Nat.succ_mul, Nat.add_mul, Nat.one_mul, Nat.mul_comm]
    omega

theorem ceil_div_of_mod_eq (n b : Nat) (hb : 0 < b) (h : n % b = 0) :
    (n + b - 1) / b = n / b := by
  have h1 := Nat.div_add_mod n b
  apply Nat.div_eq_of_lt_le
  · rw [Nat.mul_comm]
    omega
  · rw [Nat.succ_mul, Nat.mul_comm]
    omega

/-- With batch size zero and an empty `failMetrics`, `Write` returns `nil`. -/
theorem Write_zero_batch_empty (env : Env μ ε) (ro : RunningOutput μ ε)
    (hb : ro.MetricBatchSize = 0) (hF : ro.failMetrics.buf = []) :
    (ro.Write env).1 = Outcome.ret none := by
  rw [Write_empty env ro hF]
  obtain ⟨_, _, _, hc⟩ := finalPhase_spec env
    (none, ro.setBufferSize ro.failMetrics.Len ro.metrics.Len)
  have hbatch : ((none, ro.setBufferSize ro.failMetrics.Len ro.metrics.Len) :
      Option ε × RunningOutput μ ε).2.metrics.Batch
      ((none, ro.setBufferSize ro.failMetrics.Len ro.metrics.Len) :
        Option ε × RunningOutput μ ε).2.MetricBatchSize = ([], ro.metrics) := by
    simp [RunningOutput.setBufferSize, Buffer.Batch, hb]
  rcases hc with ⟨_, h2, _⟩ | ⟨e, _, _, hne, _⟩ | ⟨e, h1, _⟩
  · exact h2
  · rw [hbatch] at hne
    exact absurd rfl hne
  · cases h1



/-! ## The claims -/

/-- C1: for a batch size of at least one and queues `failMetrics = F0`,
`metrics = M0` whose total length fits the capacity of `failMetrics`: after `N`
calls of `Write` in which every sink call is rejected and one more call of
`Write` in which every sink call is accepted, the last call returns `nil`,
`failMetrics` is empty, and the metrics the sink accepted (in call order)
followed by what is left in `metrics` are exactly `F0 ++ M0`. -/
theorem Write_retry_cycles_lossless (env : Env μ ε) (ro : RunningOutput μ ε) (N : Nat)
    (hb : 1 ≤ ro.MetricBatchSize)
    (hcap : ro.failMetrics.buf.length + ro.metrics.buf.length ≤ ro.failMetrics.limit)
    (hrej : ∀ ev ∈ newEvents ro.trace.length (WriteN env N ro), ev.isAccepted = false)
    (hacc : ∀ ev ∈ newEvents (WriteN env N ro).trace.length ((WriteN env N ro).Write env).2,
      ev.isRejected = false) :
    ((WriteN env N ro).Write env).1 = Outcome.ret none ∧
    ((WriteN env N ro).Write env).2.failMetrics.buf = [] ∧
    accepted (newEvents ro.trace.length ((WriteN env N ro).Write env).2) ++
        ((WriteN env N ro).Write env).2.metrics.buf =
      ro.failMetrics.buf ++ ro.metrics.buf := by
  have hb0 : ro.MetricBatchSize ≠ 0 := by omega
  obtain ⟨new1, ht1⟩ := WriteN_trace_extends env N ro
  rw [newEvents_eq ro _ new1 ht1] at hrej
  obtain ⟨a1, a2, a3⟩ := WriteN_rejecting env N ro hb0 hcap new1 ht1 hrej
  have hlen : (WriteN env N ro).failMetrics.buf.length + (WriteN env N ro).metrics.buf.length =
      ro.failMetrics.buf.length + ro.metrics.buf.length := by
    have := congrArg List.length a1
    simpa only [List.length_append] using this
  have hbN : (WriteN env N ro).MetricBatchSize ≠ 0 := by rw [a3]; exact hb0
  obtain ⟨err, new2, _, ht2, hc2, _, _, _, _, _⟩ := Write_conserve env (WriteN env N ro) hbN
    (by
      have := Nat.min_le_right (WriteN env N ro).MetricBatchSize
        (WriteN env N ro).metrics.buf.length
      rw [a2]
      omega)
  rw [newEvents_eq (WriteN env N ro) _ new2 ht2] at hacc
  obtain ⟨b1, b2, _, _⟩ := Write_accepting_state env (WriteN env N ro) hbN new2 ht2 hacc
  have hall : ((WriteN env N ro).Write env).2.trace = ro.trace ++ (new1 ++ new2) := by
    rw [ht2, ht1, List.append_assoc]
  refine ⟨b1, b2, ?_⟩
  rw [newEvents_eq ro _ (new1 ++ new2) hall, accepted_append, accepted_eq_nil new1 hrej,
    List.nil_append, ← a1, ← hc2, b2, List.append_nil]

/-- Witness of C1: one rejected flush cycle, then an accepting one, with batch
size 2, `failMetrics = [1, 2]` and `metrics = [3]`. -/
theorem Write_retry_cycles_lossless_witness :
    ((WriteN exRejectFirst 1 (exPipeline [some 1, some 2] [some 3])).Write
        exRejectFirst).1 = Outcome.ret none ∧
    ((WriteN exRejectFirst 1 (exPipeline [some 1, some 2] [some 3])).Write
        exRejectFirst).2.failMetrics.buf = [] ∧
    accepted (newEvents (exPipeline [some 1, some 2] [some 3]).trace.length
        ((WriteN exRejectFirst 1 (exPipeline [some 1, some 2] [some 3])).Write
          exRejectFirst).2) ++
        ((WriteN exRejectFirst 1 (exPipeline [some 1, some 2] [some 3])).Write
          exRejectFirst).2.metrics.buf =
      (exPipeline [some 1, some 2] [some 3]).failMetrics.buf ++
        (exPipeline [some 1, some 2] [some 3]).metrics.buf :=
  Write_retry_cycles_lossless exRejectFirst (exPipeline [some 1, some 2] [some 3]) 1
    (by decide) (by decide) (by decide) (by decide)

/-- C2: for a batch size of at least one and non-nil metrics `m1..mk` with `k`
within the capacity of the `metrics` queue (or, for any `k`, when that queue has
room for one batch): starting from empty queues, when no
sink call is rejected, the calls `AddMetric(m1)`, ..., `AddMetric(mk)` followed by
one `Write` pass to the sink batches whose concatenation in call order is
`[m1, ..., mk]`; `Write` returns `nil` and both queues are empty afterwards. -/
theorem AddMetric_then_Write_delivers (env : Env μ ε) (ro : RunningOutput μ ε) (ms : List μ)
    (hb : 1 ≤ ro.MetricBatchSize) (hF : ro.failMetrics.buf = []) (hM : ro.metrics.buf = [])
    (hk : ms.length ≤ ro.metrics.limit ∨ ro.MetricBatchSize ≤ ro.metrics.limit)
    (hacc : ∀ ev ∈ newEvents ro.trace.length ((AddMetrics env (ms.map some) ro).Write env).2,
      ev.isRejected = false) :
    (sinkBatches (newEvents ro.trace.length
        ((AddMetrics env (ms.map some) ro).Write env).2)).flatten = ms.map some ∧
    ((AddMetrics env (ms.map some) ro).Write env).1 = Outcome.ret none ∧
    ((AddMetrics env (ms.map some) ro).Write env).2.metrics.buf = [] ∧
    ((AddMetrics env (ms.map some) ro).Write env).2.failMetrics.buf = [] := by
  have hb0 : ro.MetricBatchSize ≠ 0 := by omega
  obtain ⟨e1, h1⟩ := AddMetrics_trace_extends env (ms.map some) ro
  obtain ⟨e2, h2⟩ := Write_trace_extends env (AddMetrics env (ms.map some) ro)
  have hall : ((AddMetrics env (ms.map some) ro).Write env).2.trace = ro.trace ++ (e1 ++ e2) := by
    rw [h2, h1, List.append_assoc]
  rw [newEvents_eq ro _ (e1 ++ e2) hall] at hacc ⊢
  have hacc1 : ∀ ev ∈ e1, ev.isRejected = false := by
    intro ev hev
    exact hacc ev (by simp [hev])
  have hacc2 : ∀ ev ∈ e2, ev.isRejected = false := by
    intro ev hev
    exact hacc ev (by simp [hev])
  obtain ⟨a1, a2, a3, a4⟩ := AddMetrics_accepting env ms ro hb0 hF
    (by rw [hM]; simp only [List.length_nil]; omega)
    (by rw [hM]; simpa using hk) e1 h1 hacc1
  rw [hM, List.nil_append] at a4
  obtain ⟨b1, b2, b3, b4⟩ := Write_accepting_state env (AddMetrics env (ms.map some) ro)
    (by rw [a3]; exact hb0) e2 h2 hacc2
  rw [a3] at b3 b4
  have htake : (AddMetrics env (ms.map some) ro).metrics.buf.take ro.MetricBatchSize =
      (AddMetrics env (ms.map some) ro).metrics.buf := List.take_of_length_le (by omega)
  have hdrop : (AddMetrics env (ms.map some) ro).metrics.buf.drop ro.MetricBatchSize = [] :=
    List.drop_eq_nil_of_le (by omega)
  refine ⟨?_, b1, by rw [b3, hdrop], b2⟩
  rw [sinkBatches_append, List.flatten_append, b4, a1, List.nil_append, htake, a4]

/-- Witness of C2: three metrics, batch size 2, a sink that accepts every call. -/
theorem AddMetric_then_Write_delivers_witness :
    (sinkBatches (newEvents (exPipeline [] []).trace.length
        ((AddMetrics exAcceptAll ([1, 2, 3].map some) (exPipeline [] [])).Write
          exAcceptAll).2)).flatten = [1, 2, 3].map some ∧
    ((AddMetrics exAcceptAll ([1, 2, 3].map some) (exPipeline [] [])).Write
      exAcceptAll).1 = Outcome.ret none ∧
    ((AddMetrics exAcceptAll ([1, 2, 3].map some) (exPipeline [] [])).Write
      exAcceptAll).2.metrics.buf = [] ∧
    ((AddMetrics exAcceptAll ([1, 2, 3].map some) (exPipeline [] [])).Write
      exAcceptAll).2.failMetrics.buf = [] :=
  AddMetric_then_Write_delivers exAcceptAll (exPipeline [] []) [1, 2, 3]
    (by decide) rfl rfl (Or.inl (by decide)) (by decide)

/-- C3: for a batch size of at least one, every sink behaviour and every state
`failMetrics = F`, `metrics = M` with `len(F) + min(batchSize, len(M))` within the
capacity of `failMetrics`: one `Write` returns, and the metrics the sink
accepted, followed by `failMetrics` and `metrics` afterwards, are `F ++ M`. -/
theorem Write_conserves_metrics (env : Env μ ε) (ro : RunningOutput μ ε)
    (hb : 1 ≤ ro.MetricBatchSize)
    (hcap : ro.failMetrics.buf.length + min ro.MetricBatchSize ro.metrics.buf.length ≤
      ro.failMetrics.limit) :
    (∃ err, (ro.Write env).1 = Outcome.ret err) ∧
    accepted (newEvents ro.trace.length (ro.Write env).2) ++
        (ro.Write env).2.failMetrics.buf ++ (ro.Write env).2.metrics.buf =
      ro.failMetrics.buf ++ ro.metrics.buf := by
  obtain ⟨err, new, h1, ht, hc, _⟩ := Write_conserve env ro (by omega) hcap
  rw [newEvents_eq ro _ new ht]
  exact ⟨⟨err, h1⟩, hc⟩

/-- Witness of C3: batch size 2, `failMetrics = [1, 2]`, `metrics = [3]`, a sink
that rejects its first call. -/
theorem Write_conserves_metrics_witness :
    (∃ err, ((exPipeline [some 1, some 2] [some 3]).Write exRejectFirst).1 = Outcome.ret err) ∧
    accepted (newEvents (exPipeline [some 1, some 2] [some 3]).trace.length
        ((exPipeline [some 1, some 2] [some 3]).Write exRejectFirst).2) ++
        ((exPipeline [some 1, some 2] [some 3]).Write exRejectFirst).2.failMetrics.buf ++
        ((exPipeline [some 1, some 2] [some 3]).Write exRejectFirst).2.metrics.buf =
      (exPipeline [some 1, some 2] [some 3]).failMetrics.buf ++
        (exPipeline [some 1, some 2] [some 3]).metrics.buf :=
  Write_conserves_metrics exRejectFirst (exPipeline [some 1, some 2] [some 3])
    (by decide) (by decide)

/-- Counterexample to C4 as stated: with batch size 2 and a sink that rejects
only its first call, the calls `AddMetric(1)`, ..., `AddMetric(4)` pass the batch
`[3, 4]`, taken from `metrics`, to the sink while `failMetrics` holds `[1, 2]`. -/
theorem AddMetric_flush_ignores_failMetrics :
    ¬ RetriesFirst (newEvents (exPipeline [] []).trace.length
      (AddMetrics exRejectFirst [some 1, some 2, some 3, some 4] (exPipeline [] []))) := by
  intro h
  have h2 := h 2 [some 3, some 4] none (by decide)
  exact absurd h2 (by decide)

/-- C4 (amended): in `Write`, for every state and every sink behaviour, a batch
taken from the `metrics` queue is passed to the sink only when `failMetrics` is
empty at that moment. -/
theorem Write_retries_failMetrics_first (env : Env μ ε) (ro : RunningOutput μ ε) :
    RetriesFirst (newEvents ro.trace.length (ro.Write env).2) := by
  obtain ⟨new, ht, h⟩ := Write_sinks env ro
  rw [newEvents_eq ro _ new ht]
  intro fl B e hm
  exact (h Src.metricsQ fl B e hm).2 rfl

/-- C5: for every state and every sink behaviour, one `Write` makes at most one
rejected sink call; either no sink call is rejected, or the events of the call
are: events without a rejected call, the rejected call, the re-enqueue of its
batch, and then only batches that are extracted and put onto `failMetrics` at
once, in extraction order, with no further sink call. -/
theorem Write_short_circuits (env : Env μ ε) (ro : RunningOutput μ ε) :
    ((newEvents ro.trace.length (ro.Write env).2).filter Event.isRejected).length ≤ 1 ∧
    ((∀ ev ∈ newEvents ro.trace.length (ro.Write env).2, ev.isRejected = false) ∨
     ∃ pre src fl B x rest,
       newEvents ro.trace.length (ro.Write env).2 =
         pre ++ Event.sink src fl B (some x) :: Event.requeue B :: rotation rest ∧
       (∀ ev ∈ pre, ev.isRejected = false) ∧
       (∀ ev ∈ (rotation rest : List (Event μ ε)), ev.isSink = false)) := by
  obtain ⟨new, ht, hc⟩ := Write_shortCircuit env ro
  rw [newEvents_eq ro _ new ht]
  rcases hc with ⟨_, h0, _, _⟩ | ⟨err, _, hs, _⟩
  · subst h0
    exact ⟨by simp, Or.inl (by intro ev hev; simp at hev)⟩
  · refine ⟨ShortCircuit_count new err hs, ?_⟩
    cases err with
    | none => exact Or.inl hs
    | some x =>
      obtain ⟨pre, src, fl, B, rest, hnew, hpre⟩ := hs
      exact Or.inr ⟨pre, src, fl, B, x, rest, hnew, hpre, rotation_not_sink rest⟩

/-- C6: for every state with a batch size of at least one and every sink
behaviour, `Write` returns; it returns `nil` if and only if no sink call made
during it was rejected, and when a sink call is rejected it returns exactly the
error value of that call. -/
theorem Write_returns_sink_error (env : Env μ ε) (ro : RunningOutput μ ε)
    (hb : 1 ≤ ro.MetricBatchSize) :
    ∃ err, (ro.Write env).1 = Outcome.ret err ∧
      (err = none ↔ ∀ ev ∈ newEvents ro.trace.length (ro.Write env).2, ev.isRejected = false) ∧
      ∀ src fl B x, Event.sink src fl B (some x) ∈ newEvents ro.trace.length (ro.Write env).2 →
        err = some x := by
  obtain ⟨err, new, h1, ht, hs⟩ := Write_returns env ro (by omega)
  rw [newEvents_eq ro _ new ht]
  exact ⟨err, h1, ShortCircuit_none_iff new err hs, ShortCircuit_error new err hs⟩

/-- Witness of C6: batch size 2, `failMetrics = [1, 2]`, `metrics = [3]`, a sink
that rejects its first call. -/
theorem Write_returns_sink_error_witness :
    ∃ err, ((exPipeline [some 1, some 2] [some 3]).Write exRejectFirst).1 = Outcome.ret err ∧
      (err = none ↔ ∀ ev ∈ newEvents (exPipeline [some 1, some 2] [some 3]).trace.length
        ((exPipeline [some 1, some 2] [some 3]).Write exRejectFirst).2, ev.isRejected = false) ∧
      ∀ src fl B x, Event.sink src fl B (some x) ∈
          newEvents (exPipeline [some 1, some 2] [some 3]).trace.length
            ((exPipeline [some 1, some 2] [some 3]).Write exRejectFirst).2 →
        err = some x :=
  Write_returns_sink_error exRejectFirst (exPipeline [some 1, some 2] [some 3]) (by decide)

/-- C7: for a batch size `b` of at least one and every state `failMetrics = F`,
`metrics = M`: no empty batch is ever passed to the sink, and when no sink call
is rejected the sink calls of `Write` are, in this order, the consecutive chunks
of `F` of length `b` (the last one the shorter remainder) and then, if `M` is
non-empty, the first `min(b, len(M))` elements of `M`; their number is
`ceil(len(F)/b)` plus one if `M` is non-empty. -/
theorem Write_accepting_sink_calls (env : Env μ ε) (ro : RunningOutput μ ε)
    (hb : 1 ≤ ro.MetricBatchSize) :
    (∀ batch ∈ sinkBatches (newEvents ro.trace.length (ro.Write env).2), batch ≠ []) ∧
    ((∀ ev ∈ newEvents ro.trace.length (ro.Write env).2, ev.isRejected = false) →
      sinkBatches (newEvents ro.trace.length (ro.Write env).2) =
        chunks ro.MetricBatchSize ro.failMetrics.buf ++
          (if ro.metrics.buf.isEmpty then [] else [ro.metrics.buf.take ro.MetricBatchSize]) ∧
      (sinkBatches (newEvents ro.trace.length (ro.Write env).2)).length =
        (ro.failMetrics.buf.length + ro.MetricBatchSize - 1) / ro.MetricBatchSize +
          (if ro.metrics.buf.isEmpty then 0 else 1)) := by
  have hb0 : ro.MetricBatchSize ≠ 0 := by omega
  obtain ⟨new, ht, hs⟩ := Write_sinks env ro
  rw [newEvents_eq ro _ new ht]
  refine ⟨?_, ?_⟩
  · intro batch hmem
    obtain ⟨s, fl, e, hm⟩ := mem_sinkBatches new batch hmem
    exact (hs s fl batch e hm).1
  · intro hacc
    have h := Write_accepting env ro hb0 new ht hacc
    refine ⟨h, ?_⟩
    rw [h, List.length_append, chunks_length ro.MetricBatchSize hb0 _ _ rfl]
    cases ro.metrics.buf.isEmpty <;> simp

/-- Witness of C7: batch size 2, `failMetrics = [A, B]`, `metrics = [C]` and an
accepting sink give the sink calls `[A, B]` then `[C]`. -/
theorem Write_accepting_sink_calls_witness :
    sinkBatches (newEvents (exPipeline [some 1, some 2] [some 3]).trace.length
        ((exPipeline [some 1, some 2] [some 3]).Write exAcceptAll).2) =
      [[some 1, some 2], [some 3]] ∧
    (sinkBatches (newEvents (exPipeline [some 1, some 2] [some 3]).trace.length
        ((exPipeline [some 1, some 2] [some 3]).Write exAcceptAll).2)).length = 2 ∧
    ∀ batch ∈ sinkBatches (newEvents (exPipeline [some 1, some 2] [some 3]).trace.length
        ((exPipeline [some 1, some 2] [some 3]).Write exAcceptAll).2), batch ≠ [] := by
  have h := Write_accepting_sink_calls exAcceptAll (exPipeline [some 1, some 2] [some 3])
    (by decide)
  have h2 := h.2 (by decide)
  refine ⟨?_, ?_, h.1⟩
  · rw [h2.1]
    decide
  · rw [h2.2]
    decide

/-- Counterexample to C8 as stated: with batch size 2, buffer limit 10 and a
sink that rejects `[1, 2]`, after `AddMetric(1)`, `AddMetric(2)`, `AddMetric(3)` and
one `Write` the state is not `failMetrics = [1, 2]`, `metrics = [3]`: the batch
`[3]` has been moved onto `failMetrics`. -/
theorem scenario_state_not_as_claimed :
    ((AddMetrics exRejectAB [some 1, some 2, some 3] (exPipeline [] [])).Write
        exRejectAB).2.failMetrics.buf = [some 1, some 2, some 3] ∧
    ((AddMetrics exRejectAB [some 1, some 2, some 3] (exPipeline [] [])).Write
        exRejectAB).2.metrics.buf = [] ∧
    ¬ (((AddMetrics exRejectAB [some 1, some 2, some 3] (exPipeline [] [])).Write
          exRejectAB).2.failMetrics.buf = [some 1, some 2] ∧
       ((AddMetrics exRejectAB [some 1, some 2, some 3] (exPipeline [] [])).Write
          exRejectAB).2.metrics.buf = [some 3]) := by
  decide

/-- C8 (amended): with batch size 2 and buffer limit 10, starting from empty
queues, with a sink that rejects the batch `[A, B]`: after `AddMetric(A)`,
`AddMetric(B)`, `AddMetric(C)` the state is `failMetrics = [A, B]`, `metrics = [C]`,
and after one `Write`, which returns the sink's error, the state is
`failMetrics = [A, B, C]` and `metrics = []`. -/
theorem scenario_rejected_batch_state (env : Env μ ε) (ro : RunningOutput μ ε) (A B C : μ)
    (hb : ro.MetricBatchSize = 2) (hml : ro.metrics.limit = 10)
    (hfl : ro.failMetrics.limit = 10)
    (hF : ro.failMetrics.buf = []) (hM : ro.metrics.buf = [])
    (hrej : ∀ tr, env.sinkWrite tr [some A, some B] ≠ none) :
    (AddMetrics env [some A, some B, some C] ro).failMetrics.buf = [some A, some B] ∧
    (AddMetrics env [some A, some B, some C] ro).metrics.buf = [some C] ∧
    (∃ e, ((AddMetrics env [some A, some B, some C] ro).Write env).1 = Outcome.ret (some e)) ∧
    ((AddMetrics env [some A, some B, some C] ro).Write env).2.failMetrics.buf =
      [some A, some B, some C] ∧
    ((AddMetrics env [some A, some B, some C] ro).Write env).2.metrics.buf = [] := by
  obtain ⟨a1, a2, a3, a4⟩ := scenario_adds env ro A B C hb hml hfl hF hM hrej
  obtain ⟨b1, b2, b3⟩ := scenario_write env (AddMetrics env [some A, some B, some C] ro)
    A B C a3 a4 a1 a2 hrej
  exact ⟨a1, a2, b1, b2, b3⟩

/-- Witness of C8 (amended): metrics 1, 2, 3 and the sink that rejects `[1, 2]`. -/
theorem scenario_rejected_batch_state_witness :
    (AddMetrics exRejectAB [some 1, some 2, some 3] (exPipeline [] [])).failMetrics.buf =
      [some 1, some 2] ∧
    (AddMetrics exRejectAB [some 1, some 2, some 3] (exPipeline [] [])).metrics.buf =
      [some 3] ∧
    (∃ e, ((AddMetrics exRejectAB [some 1, some 2, some 3] (exPipeline [] [])).Write
      exRejectAB).1 = Outcome.ret (some e)) ∧
    ((AddMetrics exRejectAB [some 1, some 2, some 3] (exPipeline [] [])).Write
      exRejectAB).2.failMetrics.buf = [some 1, some 2, some 3] ∧
    ((AddMetrics exRejectAB [some 1, some 2, some 3] (exPipeline [] [])).Write
      exRejectAB).2.metrics.buf = [] :=
  scenario_rejected_batch_state exRejectAB (exPipeline [] []) 1 2 3 rfl rfl rfl rfl rfl
    (by intro tr; simp [exRejectAB])

/-- C9: for a non-nil metric `m` and a batch size `b` of at least one,
`AddMetric(m)` appends `m` to `metrics` (dropping the oldest entries beyond the
capacity). If the length is then not `b`, nothing else happens: no sink call,
`failMetrics` unchanged. If it is `b`, the whole queue, exactly `b` metrics, is
removed and passed to the sink in one call; when the sink accepts, `failMetrics`
is unchanged, and when it rejects, the batch is appended to `failMetrics`.
`AddMetric` has no return value. -/
theorem AddMetric_flush_when_full (env : Env μ ε) (ro : RunningOutput μ ε) (m : μ)
    (hb : 1 ≤ ro.MetricBatchSize) :
    (ro.metrics.Add [some m]).buf =
      (ro.metrics.buf ++ [some m]).drop ((ro.metrics.buf ++ [some m]).length - ro.metrics.limit) ∧
    ((ro.metrics.Add [some m]).buf.length ≠ ro.MetricBatchSize →
      ro.AddMetric env (some m) = { ro with metrics := ro.metrics.Add [some m] }) ∧
    ((ro.metrics.Add [some m]).buf.length = ro.MetricBatchSize →
      (ro.AddMetric env (some m)).metrics.buf = [] ∧
      (env.sinkWrite (ro.trace ++ [Event.extract Src.metricsQ ro.MetricBatchSize
          (ro.metrics.Add [some m]).buf]) (ro.metrics.Add [some m]).buf = none →
        (ro.AddMetric env (some m)).trace =
          ro.trace ++ [Event.extract Src.metricsQ ro.MetricBatchSize
              (ro.metrics.Add [some m]).buf,
            Event.sink Src.metricsQ ro.failMetrics.Len (ro.metrics.Add [some m]).buf none] ∧
        (ro.AddMetric env (some m)).failMetrics = ro.failMetrics) ∧
      (∀ e, env.sinkWrite (ro.trace ++ [Event.extract Src.metricsQ ro.MetricBatchSize
          (ro.metrics.Add [some m]).buf]) (ro.metrics.Add [some m]).buf = some e →
        (ro.AddMetric env (some m)).trace =
          ro.trace ++ [Event.extract Src.metricsQ ro.MetricBatchSize
              (ro.metrics.Add [some m]).buf,
            Event.sink Src.metricsQ ro.failMetrics.Len (ro.metrics.Add [some m]).buf (some e),
            Event.requeue (ro.metrics.Add [some m]).buf] ∧
        (ro.AddMetric env (some m)).failMetrics =
          ro.failMetrics.Add (ro.metrics.Add [some m]).buf)) := by
  refine ⟨rfl, ?_, ?_⟩
  · intro hne
    rcases AddMetric_spec env ro m with ⟨_, h⟩ | ⟨heq, _⟩
    · exact h
    · exact absurd heq hne
  · intro heq
    have hfull := Buffer.Batch_full (ro.metrics.Add [some m]) ro.MetricBatchSize heq
    have hne : (ro.metrics.Add [some m]).buf ≠ [] := by
      intro h0
      rw [h0] at heq
      simp only [List.length_nil] at heq
      omega
    rcases AddMetric_spec env ro m with ⟨hlen, _⟩ | ⟨_, ⟨h1, _⟩ | ⟨_, hs, h⟩ | ⟨_, e, hs, h⟩⟩
    · exact absurd heq hlen
    · rw [hfull.1] at h1
      exact absurd h1 hne
    · rw [hfull.1] at hs h
      refine ⟨by rw [h]; exact hfull.2, fun _ => ⟨by rw [h], by rw [h]⟩, ?_⟩
      intro e he
      rw [hs] at he
      cases he
    · rw [hfull.1] at hs h
      refine ⟨by rw [h]; exact hfull.2, ?_, ?_⟩
      · intro he
        rw [hs] at he
        cases he
      · intro e' he
        rw [hs] at he
        injection he with he
        subst he
        exact ⟨by rw [h], by rw [h]⟩

/-- Witness of C9: the second metric fills a batch of size 2, which the sink
rejects. -/
theorem AddMetric_flush_when_full_witness :
    ((exPipeline [] [some 1]).AddMetric exRejectFirst (some 2)).metrics.buf = [] ∧
    ((exPipeline [] [some 1]).AddMetric exRejectFirst (some 2)).failMetrics.buf =
      [some 1, some 2] := by
  have h := (AddMetric_flush_when_full exRejectFirst (exPipeline [] [some 1]) 2
    (by decide)).2.2 (by decide)
  refine ⟨h.1, ?_⟩
  rw [(h.2.2 7 (by decide)).2]
  decide

/-- C10: `write` with an empty batch makes no sink call, returns `nil`, and
leaves the state, in particular the `MetricsWritten` and `WriteTime` counters
and the trace of sink calls, unchanged. -/
theorem write_empty_batch (env : Env μ ε) (ro : RunningOutput μ ε) (src : Src) :
    (ro.write env src []).1 = none ∧ (ro.write env src []).2 = ro ∧
    (ro.write env src []).2.trace = ro.trace ∧
    (ro.write env src []).2.MetricsWritten = ro.MetricsWritten ∧
    (ro.write env src []).2.WriteTime = ro.WriteTime :=
  ⟨rfl, rfl, rfl, rfl, rfl⟩

/-- C11: for a non-empty batch, `write` makes exactly one sink call, with the
whole batch in its order, and returns what the sink returned; when the sink
accepts, `MetricsWritten` grows by the length of the batch and `WriteTime` by
the elapsed time; when it rejects, both counters are unchanged. -/
theorem write_nonempty_batch (env : Env μ ε) (ro : RunningOutput μ ε) (src : Src)
    (ms : List (Metric μ)) (hne : ms ≠ []) :
    (ro.write env src ms).2.trace =
      ro.trace ++ [Event.sink src ro.failMetrics.Len ms (env.sinkWrite ro.trace ms)] ∧
    (ro.write env src ms).1 = env.sinkWrite ro.trace ms ∧
    (env.sinkWrite ro.trace ms = none →
      (ro.write env src ms).2.MetricsWritten = ro.MetricsWritten + (ms.length : Int) ∧
      (ro.write env src ms).2.WriteTime = ro.WriteTime + env.elapsed ro.trace ms) ∧
    (env.sinkWrite ro.trace ms ≠ none →
      (ro.write env src ms).2.MetricsWritten = ro.MetricsWritten ∧
      (ro.write env src ms).2.WriteTime = ro.WriteTime) ∧
    (ro.write env src ms).2.metrics = ro.metrics ∧
    (ro.write env src ms).2.failMetrics = ro.failMetrics := by
  rcases write_spec env ro src ms with ⟨h1, _⟩ | ⟨_, hs, h⟩ | ⟨_, e, hs, h⟩
  · exact absurd h1 hne
  · rw [h, hs]
    exact ⟨rfl, rfl, fun _ => ⟨rfl, rfl⟩, fun hc => absurd rfl hc, rfl, rfl⟩
  · rw [h, hs]
    refine ⟨rfl, rfl, fun hc => ?_, fun _ => ⟨rfl, rfl⟩, rfl, rfl⟩
    cases hc

/-- Witness of C11: the batch `[1, 2]` and a sink that rejects its first call. -/
theorem write_nonempty_batch_witness :
    ((exPipeline [] []).write exRejectFirst Src.metricsQ [some 1, some 2]).1 = some 7 ∧
    ((exPipeline [] []).write exRejectFirst Src.metricsQ [some 1, some 2]).2.MetricsWritten =
      (exPipeline [] []).MetricsWritten ∧
    ((exPipeline [] []).write exRejectFirst Src.metricsQ [some 1, some 2]).2.WriteTime =
      (exPipeline [] []).WriteTime := by
  have h := write_nonempty_batch exRejectFirst (exPipeline [] []) Src.metricsQ
    [some 1, some 2] (by decide)
  exact ⟨h.2.1, h.2.2.2.1 (by decide)⟩

/-- C12: `NewSerializer` returns an error if and only if `DataFormat` is neither
"influx" nor "json"; in that case the serializer is `nil` and the message is
"Invalid data format: " followed by the requested format; without an error
the serializer is not `nil`. -/
theorem NewSerializer_error_iff (config : SerializerConfig) :
    ((NewSerializer config).2 ≠ none ↔
      (config.DataFormat ≠ "influx" ∧ config.DataFormat ≠ "json")) ∧
    ((NewSerializer config).2 ≠ none →
      (NewSerializer config).1 = none ∧
      (NewSerializer config).2 = some ("Invalid data format: " ++ config.DataFormat)) ∧
    ((NewSerializer config).2 = none → (NewSerializer config).1 ≠ none) := by
  by_cases h1 : config.DataFormat = "influx"
  · simp [NewSerializer, NewInfluxSerializer, h1]
  · by_cases h2 : config.DataFormat = "json"
    · simp [NewSerializer, NewJsonSerializer, h2]
    · simp [NewSerializer, h1, h2]

/-- Witness of C12: the format "xml" gives no serializer and an error naming
"xml". -/
theorem NewSerializer_error_iff_witness :
    (NewSerializer
      { DataFormat := "xml", Prefix := "", Template := "", TimestampUnits := 0 }).1 = none ∧
    (NewSerializer
      { DataFormat := "xml", Prefix := "", Template := "", TimestampUnits := 0 }).2 =
        some "Invalid data format: xml" := by
  have h := NewSerializer_error_iff
    { DataFormat := "xml", Prefix := "", Template := "", TimestampUnits := 0 }
  exact h.2.1 (h.1.mpr (by decide))

/-- C13: with `DataFormat` "influx" `NewSerializer` returns the stateless
`InfluxSerializer`, with "json" a `JsonSerializer` holding the configured
`TimestampUnits`; the error is `nil`, whatever `Prefix` and `Template` are. -/
theorem NewSerializer_recognized (p t : String) (u : Int) :
    NewSerializer { DataFormat := "influx", Prefix := p, Template := t, TimestampUnits := u } =
      (some Serializer.InfluxSerializer, none) ∧
    NewSerializer { DataFormat := "json", Prefix := p, Template := t, TimestampUnits := u } =
      (some (Serializer.JsonSerializer u), none) := by
  constructor
  · simp [NewSerializer, NewInfluxSerializer]
  · simp [NewSerializer, NewJsonSerializer]

/-- C14 (code defect): the format "graphite", which the documentation of
`SerializerConfig` names, is rejected by `NewSerializer`. -/
theorem NewSerializer_graphite_rejected (p t : String) (u : Int) :
    NewSerializer
        { DataFormat := "graphite", Prefix := p, Template := t, TimestampUnits := u } =
      (none, some "Invalid data format: graphite") := by
  simp [NewSerializer]

/-- C15 (code defect): `NewRunningOutput` leaves the batch size and the buffer
limit at zero and the queues unallocated; the declared defaults 1000 and 10000
(a multiple of 1000) are not applied. -/
theorem NewRunningOutput_zero_sizes (name : String) (output : Env μ ε) (conf : OutputConfig) :
    (NewRunningOutput name output conf).MetricBatchSize = 0 ∧
    (NewRunningOutput name output conf).MetricBufferLimit = 0 ∧
    (NewRunningOutput name output conf).metrics = none ∧
    (NewRunningOutput name output conf).failMetrics = none ∧
    (NewRunningOutput name output conf).MetricBatchSize ≠ DEFAULT_METRIC_BATCH_SIZE ∧
    (NewRunningOutput name output conf).MetricBufferLimit ≠ DEFAULT_METRIC_BUFFER_LIMIT ∧
    DEFAULT_METRIC_BATCH_SIZE = 1000 ∧ DEFAULT_METRIC_BUFFER_LIMIT = 10000 ∧
    DEFAULT_METRIC_BUFFER_LIMIT % DEFAULT_METRIC_BATCH_SIZE = 0 := by
  refine ⟨rfl, rfl, rfl, rfl, ?_, ?_, rfl, rfl, ?_⟩
  · show (0 : Nat) ≠ DEFAULT_METRIC_BATCH_SIZE
    decide
  · show (0 : Nat) ≠ DEFAULT_METRIC_BUFFER_LIMIT
    decide
  · decide

/-- Counterexample to C16 as stated: with batch size 2 and `failMetrics = [1, 2]`
the retry loop runs twice (asking for 2 and then for 0 metrics), while
`ceil(2 / 2)` is 1. -/
theorem retry_iterations_not_ceil :
    failRequests (newEvents (exPipeline [some 1, some 2] []).trace.length
      ((exPipeline [some 1, some 2] []).Write exAcceptAll).2) = [2, 0] ∧
    ((exPipeline [some 1, some 2] []).failMetrics.buf.length +
      (exPipeline [some 1, some 2] []).MetricBatchSize - 1) /
        (exPipeline [some 1, some 2] []).MetricBatchSize = 1 ∧
    (failRequests (newEvents (exPipeline [some 1, some 2] []).trace.length
      ((exPipeline [some 1, some 2] []).Write exAcceptAll).2)).length ≠
    ((exPipeline [some 1, some 2] []).failMetrics.buf.length +
      (exPipeline [some 1, some 2] []).MetricBatchSize - 1) /
        (exPipeline [some 1, some 2] []).MetricBatchSize := by
  decide

/-- C16 (amended): for a batch size `b` of at least one and `nFails >= 1` metrics
in `failMetrics`, the retry loop of `Write` runs exactly `nFails / b + 1` times,
calling `failMetrics.Batch` once in each, with the sizes `b, ..., b, nFails % b`.
That is `ceil(nFails / b)` when `b` does not divide `nFails`, and one more when
it does. -/
theorem Write_retry_iterations (env : Env μ ε) (ro : RunningOutput μ ε)
    (hb : 1 ≤ ro.MetricBatchSize) (hF : 1 ≤ ro.failMetrics.buf.length) :
    failRequests (newEvents ro.trace.length (ro.Write env).2) =
      List.replicate (ro.failMetrics.buf.length / ro.MetricBatchSize) ro.MetricBatchSize ++
        [ro.failMetrics.buf.length % ro.MetricBatchSize] ∧
    (failRequests (newEvents ro.trace.length (ro.Write env).2)).length =
      ro.failMetrics.buf.length / ro.MetricBatchSize + 1 ∧
    (ro.failMetrics.buf.length % ro.MetricBatchSize ≠ 0 →
      (failRequests (newEvents ro.trace.length (ro.Write env).2)).length =
        (ro.failMetrics.buf.length + ro.MetricBatchSize - 1) / ro.MetricBatchSize) ∧
    (ro.failMetrics.buf.length % ro.MetricBatchSize = 0 →
      (failRequests (newEvents ro.trace.length (ro.Write env).2)).length =
        (ro.failMetrics.buf.length + ro.MetricBatchSize - 1) / ro.MetricBatchSize + 1) := by
  have hne : ro.failMetrics.buf ≠ [] := by
    intro h0
    rw [h0] at hF
    simp at hF
  obtain ⟨new, ht, hr, _, _⟩ := Write_retry_events env ro (by omega) hne
  rw [newEvents_eq ro _ new ht, hr]
  refine ⟨rfl, retrySizes_length _ _, ?_, ?_⟩
  · intro hm
    rw [retrySizes_length, ceil_div_of_mod_ne _ _ (by omega) hm]
  · intro hm
    rw [retrySizes_length, ceil_div_of_mod_eq _ _ (by omega) hm]

/-- Witness of C16 (amended): batch size 2, `failMetrics = [1, 2, 3]`. -/
theorem Write_retry_iterations_witness :
    failRequests (newEvents (exPipeline [some 1, some 2, some 3] []).trace.length
      ((exPipeline [some 1, some 2, some 3] []).Write exRejectFirst).2) = [2, 1] := by
  have h := Write_retry_iterations exRejectFirst (exPipeline [some 1, some 2, some 3] [])
    (by decide) (by decide)
  rw [h.1]
  decide

/-- C18: for a batch size `b` of at least one, every sink behaviour and a
non-empty `failMetrics = F` (within its capacity): the batches the retry loop of
one `Write` extracts from `failMetrics`, concatenated in extraction order, are
exactly `F`; the requested sizes are `b, ..., b, nFails % b`; and the batches it
passes to the sink, concatenated, are a leading part of `F`, so nothing that was
re-enqueued is extracted or offered again. -/
theorem Write_retry_extracts_original (env : Env μ ε) (ro : RunningOutput μ ε)
    (hb : 1 ≤ ro.MetricBatchSize) (hF : 1 ≤ ro.failMetrics.buf.length)
    (hwf : ro.failMetrics.buf.length ≤ ro.failMetrics.limit) :
    (extractedFail (newEvents ro.trace.length (ro.Write env).2)).flatten = ro.failMetrics.buf ∧
    ((extractedFail (newEvents ro.trace.length (ro.Write env).2)).flatten).length =
      ro.failMetrics.buf.length ∧
    (failRequests (newEvents ro.trace.length (ro.Write env).2)).getLast? =
      some (ro.failMetrics.buf.length % ro.MetricBatchSize) ∧
    ∃ rest, (retriedBatches (newEvents ro.trace.length (ro.Write env).2)).flatten ++ rest =
      ro.failMetrics.buf := by
  have hne : ro.failMetrics.buf ≠ [] := by
    intro h0
    rw [h0] at hF
    simp at hF
  obtain ⟨new, ht, hr, ⟨rest, hrest⟩, hx⟩ := Write_retry_events env ro (by omega) hne
  rw [newEvents_eq ro _ new ht, hr, hx hwf]
  rw [hx hwf] at hrest
  exact ⟨rfl, rfl, by simp [retrySizes], rest, hrest⟩

/-- Witness of C18: batch size 2, `failMetrics = [1, 2, 3]`, a sink that rejects
its first call. -/
theorem Write_retry_extracts_original_witness :
    (extractedFail (newEvents (exPipeline [some 1, some 2, some 3] []).trace.length
      ((exPipeline [some 1, some 2, some 3] []).Write exRejectFirst).2)).flatten =
        [some 1, some 2, some 3] :=
  (Write_retry_extracts_original exRejectFirst (exPipeline [some 1, some 2, some 3] [])
    (by decide) (by decide) (by decide)).1

/-- C19: for a batch size `b` of at least one and any capacities, starting from
an empty `metrics` queue, after any finite sequence of `AddMetric` and `Write`
calls under any sink behaviour the `metrics` queue holds fewer than `b` metrics,
and a `Write` in that state leaves it empty. -/
theorem metrics_below_batch_size (env : Env μ ε) (ro : RunningOutput μ ε) (ops : List (Op μ))
    (hb : 1 ≤ ro.MetricBatchSize) (hM : ro.metrics.buf = []) :
    (runOps env ops ro).metrics.Len < ro.MetricBatchSize ∧
    (runOps env ops ro).MetricBatchSize = ro.MetricBatchSize ∧
    ((runOps env ops ro).Write env).2.metrics.buf = [] := by
  obtain ⟨h1, h2⟩ := runOps_metrics_lt env ops ro (by omega)
    (by rw [hM]; simp only [List.length_nil]; omega)
  obtain ⟨h3, _⟩ := Write_metrics_drained env (runOps env ops ro) (by rw [h2]; omega)
    (by rw [h2]; exact h1)
  exact ⟨h1, h2, h3⟩

/-- Witness of C19: three metrics, a flush and one more metric, batch size 2,
a sink that rejects its first call. -/
theorem metrics_below_batch_size_witness :
    (runOps exRejectFirst [Op.add (some 1), Op.add (some 2), Op.add (some 3), Op.flush,
      Op.add (some 4)] (exPipeline [] [])).metrics.Len < 2 :=
  (metrics_below_batch_size exRejectFirst (exPipeline [] [])
    [Op.add (some 1), Op.add (some 2), Op.add (some 3), Op.flush, Op.add (some 4)]
    (by decide) rfl).1

/-- Counterexample to C20 as stated: with batch size 2 and an empty `failMetrics`
the call returns without any retry iteration, while `nFails / 2 + 1` is 1. -/
theorem retry_skipped_when_empty :
    ((exPipeline [] [some 1]).Write exAcceptAll).1 = Outcome.ret none ∧
    (failRequests (newEvents (exPipeline [] [some 1]).trace.length
      ((exPipeline [] [some 1]).Write exAcceptAll).2)).length = 0 ∧
    (failRequests (newEvents (exPipeline [] [some 1]).trace.length
      ((exPipeline [] [some 1]).Write exAcceptAll).2)).length ≠
    (exPipeline [] [some 1]).failMetrics.Len / (exPipeline [] [some 1]).MetricBatchSize + 1 := by
  decide

/-- C20 (amended): `Write` panics (division by zero) exactly when the batch size
is zero and `failMetrics` is non-empty; otherwise it returns. With a batch size
of at least one and a non-empty `failMetrics` the retry loop runs
`nFails / MetricBatchSize + 1` times; with an empty `failMetrics` it is skipped,
and for batch size zero the call then returns `nil`. -/
theorem Write_total_iff (env : Env μ ε) (ro : RunningOutput μ ε) :
    ((ro.Write env).1 = Outcome.panic ↔
      (ro.MetricBatchSize = 0 ∧ ro.failMetrics.buf ≠ [])) ∧
    ((1 ≤ ro.MetricBatchSize ∨ ro.failMetrics.buf = []) →
      ∃ err, (ro.Write env).1 = Outcome.ret err) ∧
    (1 ≤ ro.MetricBatchSize → ro.failMetrics.buf ≠ [] →
      (failRequests (newEvents ro.trace.length (ro.Write env).2)).length =
        ro.failMetrics.Len / ro.MetricBatchSize + 1) ∧
    (ro.failMetrics.buf = [] →
      failRequests (newEvents ro.trace.length (ro.Write env).2) = []) ∧
    (ro.MetricBatchSize = 0 → ro.failMetrics.buf = [] →
      (ro.Write env).1 = Outcome.ret none) := by
  have hret : (1 ≤ ro.MetricBatchSize ∨ ro.failMetrics.buf = []) →
      ∃ err, (ro.Write env).1 = Outcome.ret err := by
    intro h
    by_cases hF : ro.failMetrics.buf = []
    · obtain ⟨_, err, _, _, h1⟩ := Write_skip_events env ro hF
      exact ⟨err, h1⟩
    · have hb : ro.MetricBatchSize ≠ 0 := by
        rcases h with h | h
        · omega
        · exact absurd h hF
      obtain ⟨err, _, h1, _⟩ := Write_returns env ro hb
      exact ⟨err, h1⟩
  refine ⟨⟨?_, ?_⟩, hret, ?_, ?_, ?_⟩
  · intro hp
    by_cases hc : 1 ≤ ro.MetricBatchSize ∨ ro.failMetrics.buf = []
    · obtain ⟨err, h1⟩ := hret hc
      rw [h1] at hp
      cases hp
    · constructor
      · by_cases h0 : ro.MetricBatchSize = 0
        · exact h0
        · exact absurd (Or.inl (by omega)) hc
      · intro hF
        exact hc (Or.inr hF)
  · intro ⟨h0, hF⟩
    rw [Write_panic env ro hF h0]
  · intro hb hF
    obtain ⟨new, ht, hr, _, _⟩ := Write_retry_events env ro (by omega) hF
    rw [newEvents_eq ro _ new ht, hr, retrySizes_length]
    rfl
  · intro hF
    obtain ⟨new, _, ht, hr, _⟩ := Write_skip_events env ro hF
    rw [newEvents_eq ro _ new ht, hr]
  · intro h0 hF
    exact Write_zero_batch_empty env ro h0 hF

end Lemmas

end Telegraf
